import Mathlib

/-!
The iNES loader (nes.cpp, nes.h): header codec and bank placement.

A shallow embedding of the header handling and of the mapper-dependent bank
loading of the NES loader module.  The process-wide `static ines_hdr hdr` of
the source is threaded explicitly as a value.  Calls into the host
(`file2base`, `warning`, `add_segm`) are recorded, in call order, as a list
of effects; `msg` output-window lines are not recorded.
-/

namespace NesLdr

/-! ## Bytes and raw memory -/

/-- The C type `uchar`: one byte. -/
abbrev uchar := Fin 256

/-- The C library `memcmp` over two byte blocks of one length: zero when
they agree, otherwise the sign of the first difference (bytes compared as
unsigned). -/
def memcmp_bytes : List uchar → List uchar → Int
  | a :: as, b :: bs => if a = b then memcmp_bytes as bs else if a < b then -1 else 1
  | _, _ => 0

/-- The call `memcmp(p, q, n)`, the two blocks given as the bytes found from
`p` and from `q` on. -/
def memcmp (p q : List uchar) (n : Nat) : Int :=
  memcmp_bytes (p.take n) (q.take n)

/-- The call `memset(base + off, c, n)` on the block `mem` that starts at
`base`: bytes `off .. off + n - 1` become `c`, the others are kept. -/
def memset (mem : List uchar) (off : Nat) (c : uchar) (n : Nat) : List uchar :=
  mem.take off ++ List.replicate n c ++ mem.drop (off + n)

/-! ## nes.h: the iNES header -/

/-- The struct `ines_hdr` of nes.h.  Every member is a `uchar`, so the struct
has no padding and is 16 bytes; the arrays `id[0x3]` and `reserved[7]` are
written out member by member. -/
structure ines_hdr where
  id_0 : uchar
  id_1 : uchar
  id_2 : uchar
  term : uchar
  prg_page_count_16k : uchar
  chr_page_count_8k : uchar
  rom_control_byte_0 : uchar
  rom_control_byte_1 : uchar
  ram_bank_count_8k : uchar
  reserved_0 : uchar
  reserved_1 : uchar
  reserved_2 : uchar
  reserved_3 : uchar
  reserved_4 : uchar
  reserved_5 : uchar
  reserved_6 : uchar
  deriving DecidableEq, Repr

/-- The macro `INES_HDR_SIZE`, `sizeof( ines_hdr )`. -/
def INES_HDR_SIZE : Nat := 16

/-- Byte offset of the member `id` in the struct. -/
def OFFSET_ID : Nat := 0

/-- Byte offset of the member `rom_control_byte_1` in the struct. -/
def OFFSET_ROM_CONTROL_BYTE_1 : Nat := 7

/-- Byte offset of the member `reserved` in the struct. -/
def OFFSET_RESERVED : Nat := 9

/-- The size of the member `reserved`, `sizeof(hdr.reserved)`. -/
def SIZEOF_RESERVED : Nat := 7

/-- The size of the member `id`, `sizeof(hdr.id)`. -/
def SIZEOF_ID : Nat := 3

/-- The 16 bytes of the struct in memory order. -/
def ines_hdr.bytes (h : ines_hdr) : List uchar :=
  [h.id_0, h.id_1, h.id_2, h.term, h.prg_page_count_16k, h.chr_page_count_8k,
   h.rom_control_byte_0, h.rom_control_byte_1, h.ram_bank_count_8k,
   h.reserved_0, h.reserved_1, h.reserved_2, h.reserved_3, h.reserved_4,
   h.reserved_5, h.reserved_6]

/-- The struct whose memory holds the given bytes (a byte that is not there
reads as 0; every use below supplies 16 bytes). -/
def ines_hdr.of_bytes (b : List uchar) : ines_hdr :=
  { id_0 := b.getD 0 0, id_1 := b.getD 1 0, id_2 := b.getD 2 0, term := b.getD 3 0,
    prg_page_count_16k := b.getD 4 0, chr_page_count_8k := b.getD 5 0,
    rom_control_byte_0 := b.getD 6 0, rom_control_byte_1 := b.getD 7 0,
    ram_bank_count_8k := b.getD 8 0,
    reserved_0 := b.getD 9 0, reserved_1 := b.getD 10 0, reserved_2 := b.getD 11 0,
    reserved_3 := b.getD 12 0, reserved_4 := b.getD 13 0, reserved_5 := b.getD 14 0,
    reserved_6 := b.getD 15 0 }

/-- The seven bytes of the member `reserved`. -/
def ines_hdr.reserved (h : ines_hdr) : List uchar :=
  [h.reserved_0, h.reserved_1, h.reserved_2, h.reserved_3, h.reserved_4,
   h.reserved_5, h.reserved_6]

/-! ## nes.cpp: format detection -/

/-- An input file (`linput_t`): its bytes. -/
abbrev linput := List uchar

/-- The host call `qlsize(li)`: the size of the input. -/
def qlsize (li : linput) : Nat := li.length

/-- The host calls `qlseek(li, pos, SEEK_SET)` followed by
`qlread(li, buf, size)`: the bytes that land in the buffer; their number is
the value `qlread` returns. -/
def qlread (li : linput) (pos size : Nat) : List uchar :=
  (li.drop pos).take size

/-- The string literal "NES" as bytes. -/
def NES_MAGIC : List uchar := [0x4E, 0x45, 0x53]

/-- The function `accept_file` of nes.cpp: the value it returns.  `n` is its
third argument and `ACCEPT_FIRST` the host constant or-ed into the positive
answer.  The format name written to `fileformatname` and the switch of the
processor type happen only on the last path and are not part of the value. -/
def accept_file (ACCEPT_FIRST : Nat) (li : linput) (n : Int) : Nat :=
  if n ≠ 0 then 0
  else if qlsize li < INES_HDR_SIZE then 0
  else
    let buf := qlread li 0 INES_HDR_SIZE
    if buf.length ≠ INES_HDR_SIZE then 0
    else
      let hdr := ines_hdr.of_bytes buf
      if memcmp NES_MAGIC (hdr.bytes.drop OFFSET_ID) SIZEOF_ID ≠ 0 ∨ hdr.term ≠ 0x1A then 0
      else 1 ||| ACCEPT_FIRST

/-! ## nes.cpp: corruption check and repair -/

/-- The function `is_corrupt_ines_hdr` of nes.cpp: a zeroed block of
`sizeof(hdr.reserved)` bytes is compared with the member `reserved`. -/
def is_corrupt_ines_hdr (hdr : ines_hdr) : Bool :=
  let empty := memset (List.replicate SIZEOF_RESERVED 0) 0 0 SIZEOF_RESERVED
  decide (memcmp empty (hdr.bytes.drop OFFSET_RESERVED) SIZEOF_RESERVED ≠ 0)

/-- The string literal "DiskDude" as bytes; its `strlen` is the length of
the list. -/
def diskdude : List uchar := [0x44, 0x69, 0x73, 0x6B, 0x44, 0x75, 0x64, 0x65]

/-- The function `fix_ines_hdr` of nes.cpp: the header it leaves behind. -/
def fix_ines_hdr (hdr : ines_hdr) : ines_hdr :=
  let hdr1 :=
    if memcmp (hdr.bytes.drop OFFSET_ROM_CONTROL_BYTE_1) diskdude diskdude.length = 0 then
      ines_hdr.of_bytes (memset hdr.bytes OFFSET_ROM_CONTROL_BYTE_1 0 9)
    else hdr
  ines_hdr.of_bytes (memset hdr1.bytes OFFSET_RESERVED 0 SIZEOF_RESERVED)

/-! ## nes.h: address map and masks -/

/-- The macro `RAM_START_ADDRESS`. -/
def RAM_START_ADDRESS : Nat := 0x0

/-- The macro `RAM_SIZE`. -/
def RAM_SIZE : Nat := 0x2000

/-- The macro `IOREGS_START_ADDRESS`. -/
def IOREGS_START_ADDRESS : Nat := 0x2000

/-- The macro `IOREGS_SIZE`. -/
def IOREGS_SIZE : Nat := 0x2020

/-- The macro `EXPROM_START_ADDRESS`. -/
def EXPROM_START_ADDRESS : Nat := 0x4020

/-- The macro `EXPROM_SIZE`. -/
def EXPROM_SIZE : Nat := 0x1FE0

/-- The macro `SRAM_START_ADDRESS`. -/
def SRAM_START_ADDRESS : Nat := 0x6000

/-- The macro `SRAM_SIZE`. -/
def SRAM_SIZE : Nat := 0x2000

/-- The macro `NMI_VECTOR_START_ADDRESS`. -/
def NMI_VECTOR_START_ADDRESS : Nat := 0xFFFA

/-- The macro `RESET_VECTOR_START_ADDRESS`. -/
def RESET_VECTOR_START_ADDRESS : Nat := 0xFFFC

/-- The macro `IRQ_VECTOR_START_ADDRESS`. -/
def IRQ_VECTOR_START_ADDRESS : Nat := 0xFFFE

/-- The macro `TRAINER_START_ADDRESS`. -/
def TRAINER_START_ADDRESS : Nat := 0x7000

/-- The macro `TRAINER_SIZE`. -/
def TRAINER_SIZE : Nat := 0x0200

/-- The macro `ROM_START_ADDRESS`. -/
def ROM_START_ADDRESS : Nat := 0x8000

/-- The macro `ROM_SIZE`. -/
def ROM_SIZE : Nat := 0x8000

/-- The macro `PRG_PAGE_SIZE`. -/
def PRG_PAGE_SIZE : Nat := 0x4000

/-- The macro `CHR_PAGE_SIZE`. -/
def CHR_PAGE_SIZE : Nat := 0x2000

/-- The macro `PRG_ROM_BANK_SIZE`. -/
def PRG_ROM_BANK_SIZE : Nat := PRG_PAGE_SIZE

/-- The macro `PRG_ROM_8K_BANK_SIZE`. -/
def PRG_ROM_8K_BANK_SIZE : Nat := 0x2000

/-- The macro `PRG_ROM_BANK_LOW_ADDRESS`. -/
def PRG_ROM_BANK_LOW_ADDRESS : Nat := ROM_START_ADDRESS

/-- The macro `PRG_ROM_BANK_HIGH_ADDRESS` (used only as a whole call
argument, where its unparenthesised sum is that sum). -/
def PRG_ROM_BANK_HIGH_ADDRESS : Nat := PRG_ROM_BANK_LOW_ADDRESS + PRG_ROM_BANK_SIZE

/-- The macro `PRG_ROM_BANK_8000`. -/
def PRG_ROM_BANK_8000 : Nat := 0x8000

/-- The macro `PRG_ROM_BANK_A000`. -/
def PRG_ROM_BANK_A000 : Nat := 0xA000

/-- The macro `PRG_ROM_BANK_C000`. -/
def PRG_ROM_BANK_C000 : Nat := 0xC000

/-- The macro `PRG_ROM_BANK_E000`. -/
def PRG_ROM_BANK_E000 : Nat := 0xE000

/-- The macro `CHR_ROM_BANK_SIZE`. -/
def CHR_ROM_BANK_SIZE : Nat := CHR_PAGE_SIZE

/-- The macro `CHR_ROM_BANK_ADDRESS`, `RAM_START_ADDRESS`. -/
def CHR_ROM_BANK_ADDRESS : Nat := 0x0

/-- The macro `INES_MASK_V_MIRRORING( cb )`. -/
def INES_MASK_V_MIRRORING (cb : Nat) : Nat := cb &&& 0x1

/-- The macro `INES_MASK_H_MIRRORING( cb )`: the logical negation `!` of the
vertical mask, 1 or 0. -/
def INES_MASK_H_MIRRORING (cb : Nat) : Nat := if INES_MASK_V_MIRRORING cb = 0 then 1 else 0

/-- The macro `INES_MASK_VRAM_LAYOUT( cb )`. -/
def INES_MASK_VRAM_LAYOUT (cb : Nat) : Nat := (cb &&& 0x8) >>> 3

/-- The macro `INES_MASK_SRAM( cb )`. -/
def INES_MASK_SRAM (cb : Nat) : Nat := (cb &&& 0x2) >>> 1

/-- The macro `INES_MASK_TRAINER( cb )`. -/
def INES_MASK_TRAINER (cb : Nat) : Nat := (cb &&& 0x4) >>> 2

/-- The macro `INES_MASK_MAPPER_VERSION(cb0, cb1)`. -/
def INES_MASK_MAPPER_VERSION (cb0 cb1 : Nat) : Nat :=
  ((cb0 &&& 0xF0) >>> 4) ||| (cb1 &&& 0xF0)

/-- Conversion of an `int` value to `uchar`, as at a call whose parameter is a
`uchar`: the value modulo 256. -/
def to_uchar (x : Int) : uchar := Fin.ofNat (x % 256).toNat

/-- The local `mapper` of `load_rom_banks` and of `describe_rom_image`: the
value of the macro stored into a `uchar`. -/
def ines_hdr.mapper (hdr : ines_hdr) : uchar :=
  to_uchar (INES_MASK_MAPPER_VERSION hdr.rom_control_byte_0.val hdr.rom_control_byte_1.val)

/-! ## mappers.h: the mapper numbers

The header mappers.h is not part of the sources at hand; the numbers its
macros stand for are taken as a parameter. -/

/-- The mapper macros of mappers.h that `load_rom_banks` uses as case labels. -/
structure mappers where
  MAPPER_NONE : Nat
  MAPPER_MMC1 : Nat
  MAPPER_UNROM : Nat
  MAPPER_CNROM : Nat
  MAPPER_MMC3 : Nat
  MAPPER_MMC5 : Nat
  MAPPER_FFE_F4XXX : Nat
  MAPPER_MMC4 : Nat
  MAPPER_BANDAI : Nat
  MAPPER_FFE_F8XXX : Nat
  MAPPER_JALECO_SS8806 : Nat
  MAPPER_KONAMI_VRC4 : Nat
  MAPPER_KONAMI_VRC2_TYPE_A : Nat
  MAPPER_KONAMI_VRC2_TYPE_B : Nat
  MAPPER_KONAMI_VRC6 : Nat
  MAPPER_NAMCOT_106 : Nat
  MAPPER_IREM_G_101 : Nat
  MAPPER_TAITO_TC0190 : Nat
  MAPPER_IREM_H_3001 : Nat
  MAPPER_SUNSOFT_MAPPER_4 : Nat
  MAPPER_SUNSOFT_FME7 : Nat
  MAPPER_CAMERICA : Nat
  MAPPER_IREM_74HC161_32 : Nat
  MAPPER_GNROM : Nat
  MAPPER_HK_SF3 : Nat
  MAPPER_AOROM : Nat
  MAPPER_FFE_F3XXX : Nat
  MAPPER_COLOR_DREAMS : Nat
  MAPPER_100_IN_1 : Nat
  MAPPER_NINA_1 : Nat
  MAPPER_MMC2 : Nat
  MAPPER_TENGEN_RAMBO_1 : Nat
  deriving DecidableEq, Repr

/-- The case labels of the first group of `load_rom_banks` (first PRG page,
last PRG page), in source order. -/
def mappers.labels_first_last (m : mappers) : List Nat :=
  [m.MAPPER_NONE, m.MAPPER_MMC1, m.MAPPER_UNROM, m.MAPPER_CNROM, m.MAPPER_MMC3,
   m.MAPPER_MMC5, m.MAPPER_FFE_F4XXX, m.MAPPER_MMC4, m.MAPPER_BANDAI,
   m.MAPPER_FFE_F8XXX, m.MAPPER_JALECO_SS8806, m.MAPPER_KONAMI_VRC4,
   m.MAPPER_KONAMI_VRC2_TYPE_A, m.MAPPER_KONAMI_VRC2_TYPE_B, m.MAPPER_KONAMI_VRC6,
   m.MAPPER_NAMCOT_106, m.MAPPER_IREM_G_101, m.MAPPER_TAITO_TC0190,
   m.MAPPER_IREM_H_3001, m.MAPPER_SUNSOFT_MAPPER_4, m.MAPPER_SUNSOFT_FME7,
   m.MAPPER_CAMERICA, m.MAPPER_IREM_74HC161_32, m.MAPPER_GNROM]

/-- The case labels of the third group of `load_rom_banks` (first PRG page,
second PRG page), in source order. -/
def mappers.labels_first_second (m : mappers) : List Nat :=
  [m.MAPPER_AOROM, m.MAPPER_FFE_F3XXX, m.MAPPER_COLOR_DREAMS, m.MAPPER_100_IN_1,
   m.MAPPER_NINA_1]

/-- Every case label of the switch of `load_rom_banks`, in source order. -/
def mappers.case_labels (m : mappers) : List Nat :=
  m.labels_first_last ++ [m.MAPPER_HK_SF3] ++ m.labels_first_second ++
    [m.MAPPER_MMC2, m.MAPPER_TENGEN_RAMBO_1]

/-- The mapper numbers of the iNES format description, as one instance of the
parameter. -/
def ines_mappers : mappers :=
  { MAPPER_NONE := 0, MAPPER_MMC1 := 1, MAPPER_UNROM := 2, MAPPER_CNROM := 3,
    MAPPER_MMC3 := 4, MAPPER_MMC5 := 5, MAPPER_FFE_F4XXX := 6, MAPPER_AOROM := 7,
    MAPPER_FFE_F3XXX := 8, MAPPER_MMC2 := 9, MAPPER_MMC4 := 10,
    MAPPER_COLOR_DREAMS := 11, MAPPER_100_IN_1 := 15, MAPPER_BANDAI := 16,
    MAPPER_FFE_F8XXX := 17, MAPPER_JALECO_SS8806 := 18, MAPPER_NAMCOT_106 := 19,
    MAPPER_KONAMI_VRC4 := 21, MAPPER_KONAMI_VRC2_TYPE_A := 22,
    MAPPER_KONAMI_VRC2_TYPE_B := 23, MAPPER_KONAMI_VRC6 := 24,
    MAPPER_IREM_G_101 := 32, MAPPER_TAITO_TC0190 := 33, MAPPER_NINA_1 := 34,
    MAPPER_TENGEN_RAMBO_1 := 64, MAPPER_IREM_H_3001 := 65, MAPPER_GNROM := 66,
    MAPPER_SUNSOFT_MAPPER_4 := 68, MAPPER_SUNSOFT_FME7 := 69, MAPPER_CAMERICA := 71,
    MAPPER_IREM_74HC161_32 := 78, MAPPER_HK_SF3 := 91 }

/-! ## nes.cpp: bank loading -/

/-- A call into the host made while loading, as recorded in call order. -/
inductive effect where
  /-- The call `file2base(li, pos, ea1, ea2, FILEREG_PATCHABLE)`: the
  `ea2 - ea1` bytes of the input from offset `pos` on go to the addresses
  `ea1 .. ea2 - 1`. -/
  | file2base (pos ea1 ea2 : Nat)
  /-- The call `warning(...)` of the default case of `load_rom_banks`, with
  the mapper number it prints. -/
  | warning_mapper (mapper : Nat)
  /-- The call `warning(...)` of `create_segments` about a trainer. -/
  | warning_trainer
  /-- The call `add_segm(0, start, end, name, sclass)`. -/
  | add_segm (startEA endEA : Nat) (name : String)
  deriving DecidableEq, Repr

/-- Whether a recorded call is a copy from the input. -/
def effect.is_file2base : effect → Bool
  | .file2base _ _ _ => true
  | _ => false

/-- The copies among the recorded calls, in order. -/
def placements (es : List effect) : List effect := es.filter effect.is_file2base

/-- Whether a recorded call is a call of `warning`. -/
def effect.is_warning : effect → Bool
  | .warning_mapper _ => true
  | .warning_trainer => true
  | _ => false

/-- The warnings among the recorded calls, in order. -/
def warnings (es : List effect) : List effect := es.filter effect.is_warning

/-- The function `load_chr_rom_bank` of nes.cpp: it prints a line with `msg`
and returns; the statements after that `return` are never reached. -/
def load_chr_rom_bank (_hdr : ines_hdr) (_banknr : uchar) (_address : Nat) : List effect :=
  []

/-- The statements of `load_chr_rom_bank` that stand after its unconditional
`return` (nes.cpp:431-444).  They are never executed; what they would record
is written down for comparison only. -/
def load_chr_rom_bank_unreached (hdr : ines_hdr) (banknr : uchar) (address : Nat) :
    List effect :=
  if banknr = 0 ∨ hdr.chr_page_count_8k = 0 then []
  else
    let offset := INES_HDR_SIZE +
      (if INES_MASK_TRAINER hdr.rom_control_byte_0.val ≠ 0 then TRAINER_SIZE else 0) +
      PRG_PAGE_SIZE * hdr.prg_page_count_16k.val + (banknr.val - 1) * CHR_ROM_BANK_SIZE
    [effect.file2base offset address (address + CHR_ROM_BANK_SIZE)]

/-- The function `load_prg_rom_bank` of nes.cpp.  The subtraction
`banknr - 1` is reached only with `banknr` at least 1. -/
def load_prg_rom_bank (hdr : ines_hdr) (banknr : uchar) (address : Nat) : List effect :=
  if banknr = 0 ∨ hdr.prg_page_count_16k = 0 then []
  else
    let offset := INES_HDR_SIZE +
      (if INES_MASK_TRAINER hdr.rom_control_byte_0.val ≠ 0 then TRAINER_SIZE else 0) +
      (banknr.val - 1) * PRG_ROM_BANK_SIZE
    [effect.file2base offset address (address + PRG_ROM_BANK_SIZE)]

/-- The function `load_8k_prg_rom_bank` of nes.cpp. -/
def load_8k_prg_rom_bank (hdr : ines_hdr) (banknr : uchar) (address : Nat) : List effect :=
  if banknr = 0 ∨ hdr.prg_page_count_16k = 0 then []
  else
    let offset := INES_HDR_SIZE +
      (if INES_MASK_TRAINER hdr.rom_control_byte_0.val ≠ 0 then TRAINER_SIZE else 0) +
      (banknr.val - 1) * PRG_ROM_8K_BANK_SIZE
    [effect.file2base offset address (address + PRG_ROM_8K_BANK_SIZE)]

/-- The body of the first case group of `load_rom_banks`. -/
def load_first_last (hdr : ines_hdr) : List effect :=
  load_prg_rom_bank hdr 1 PRG_ROM_BANK_LOW_ADDRESS ++
  load_prg_rom_bank hdr hdr.prg_page_count_16k PRG_ROM_BANK_HIGH_ADDRESS ++
  load_chr_rom_bank hdr 1 CHR_ROM_BANK_ADDRESS

/-- The function `load_rom_banks` of nes.cpp.  The switch is read as a chain
of tests in source order (the labels of a C switch are pairwise distinct, so
at most one test holds); the `default` label prints its warning and falls
through into the first group. -/
def load_rom_banks (m : mappers) (hdr : ines_hdr) : List effect :=
  let mapper : uchar := hdr.mapper
  let p : Int := hdr.prg_page_count_16k.val
  if mapper.val ∈ m.labels_first_last then
    load_first_last hdr
  else if mapper.val = m.MAPPER_HK_SF3 then
    load_prg_rom_bank hdr hdr.prg_page_count_16k PRG_ROM_BANK_LOW_ADDRESS ++
    load_prg_rom_bank hdr hdr.prg_page_count_16k PRG_ROM_BANK_HIGH_ADDRESS ++
    load_chr_rom_bank hdr 1 CHR_ROM_BANK_ADDRESS
  else if mapper.val ∈ m.labels_first_second then
    load_prg_rom_bank hdr 1 PRG_ROM_BANK_LOW_ADDRESS ++
    load_prg_rom_bank hdr 2 PRG_ROM_BANK_HIGH_ADDRESS ++
    load_chr_rom_bank hdr 1 CHR_ROM_BANK_ADDRESS
  else if mapper.val = m.MAPPER_MMC2 then
    load_8k_prg_rom_bank hdr 1 PRG_ROM_BANK_LOW_ADDRESS ++
    load_8k_prg_rom_bank hdr (to_uchar (p * 2 - 2)) PRG_ROM_BANK_A000 ++
    load_prg_rom_bank hdr hdr.prg_page_count_16k PRG_ROM_BANK_HIGH_ADDRESS ++
    load_chr_rom_bank hdr 1 CHR_ROM_BANK_ADDRESS
  else if mapper.val = m.MAPPER_TENGEN_RAMBO_1 then
    load_8k_prg_rom_bank hdr (to_uchar (p * 2)) PRG_ROM_BANK_8000 ++
    load_8k_prg_rom_bank hdr (to_uchar (p * 2)) PRG_ROM_BANK_A000 ++
    load_8k_prg_rom_bank hdr (to_uchar (p * 2)) PRG_ROM_BANK_C000 ++
    load_8k_prg_rom_bank hdr (to_uchar (p * 2)) PRG_ROM_BANK_E000 ++
    load_chr_rom_bank hdr 1 CHR_ROM_BANK_ADDRESS
  else
    effect.warning_mapper mapper.val :: load_first_last hdr

/-! ## nes.cpp: segments, trainer and the whole load -/

/-- The function `create_ram_segment` of nes.cpp: its `add_segm` call. -/
def create_ram_segment : List effect :=
  [effect.add_segm RAM_START_ADDRESS (RAM_START_ADDRESS + RAM_SIZE) "RAM"]

/-- The function `create_ioreg_segment` of nes.cpp: its `add_segm` call (the
`define_item` calls that name the registers are not recorded). -/
def create_ioreg_segment : List effect :=
  [effect.add_segm IOREGS_START_ADDRESS (IOREGS_START_ADDRESS + IOREGS_SIZE) "IO_REGS"]

/-- The function `create_sram_segment` of nes.cpp: its `add_segm` call. -/
def create_sram_segment : List effect :=
  [effect.add_segm SRAM_START_ADDRESS (SRAM_START_ADDRESS + SRAM_SIZE) "SRAM"]

/-- The function `create_exprom_segment` of nes.cpp: its `add_segm` call. -/
def create_exprom_segment : List effect :=
  [effect.add_segm EXPROM_START_ADDRESS (EXPROM_START_ADDRESS + EXPROM_SIZE) "EXP_ROM"]

/-- The function `create_rom_segment` of nes.cpp: its `add_segm` call. -/
def create_rom_segment : List effect :=
  [effect.add_segm ROM_START_ADDRESS (ROM_START_ADDRESS + ROM_SIZE) "ROM"]

/-- The function `load_trainer` of nes.cpp: the segment is added only
without save RAM, the copy is made in either case. -/
def load_trainer (hdr : ines_hdr) : List effect :=
  (if ¬ (INES_MASK_SRAM hdr.rom_control_byte_0.val ≠ 0) then
     [effect.add_segm TRAINER_START_ADDRESS (TRAINER_START_ADDRESS + TRAINER_SIZE) "TRAINER"]
   else []) ++
  [effect.file2base INES_HDR_SIZE TRAINER_START_ADDRESS (TRAINER_START_ADDRESS + TRAINER_SIZE)]

/-- The function `create_segments` of nes.cpp.  The save RAM segment is
created unconditionally (the test in front of it is commented out). -/
def create_segments (hdr : ines_hdr) : List effect :=
  create_ram_segment ++
  create_ioreg_segment ++
  create_sram_segment ++
  create_exprom_segment ++
  (if INES_MASK_TRAINER hdr.rom_control_byte_0.val ≠ 0 then
     effect.warning_trainer :: load_trainer hdr
   else []) ++
  create_rom_segment

/-- The header that `load_ines_file` works with after its corruption check:
`code` is the answer of the dialog `askyn_c`, and the header is repaired when
it is corrupt and the answer is 1. -/
def load_ines_file_hdr (hdr : ines_hdr) (code : Int) : ines_hdr :=
  if is_corrupt_ines_hdr hdr then
    if code = 1 then fix_ines_hdr hdr else hdr
  else hdr

/-- The function `load_ines_file` of nes.cpp, for the header read from the
input: the recorded calls (`add_segm`, `warning`, `file2base`) of the whole
load.  They come from `create_segments` and `load_rom_banks`; the other steps
(`save_image_as_blobs`, `add_entry_points`, `set_ida_export_data`,
`describe_rom_image`, `create_filename_cmt`) make none of these calls. -/
def load_ines_file (m : mappers) (hdr : ines_hdr) (code : Int) : List effect :=
  let hdr := load_ines_file_hdr hdr code
  create_segments hdr ++ load_rom_banks m hdr

/-! ## The host database -/

/-- Modelled from the spec: the host call `file2base(li, pos, ea1, ea2, ...)`,
which is not code of this repository: the bytes of the input from offset `pos`
on are stored at the addresses `ea1 .. ea2 - 1` of the destination memory; an
address whose byte lies past the end of the input keeps what it had. -/
def file2base (li : linput) (pos ea1 ea2 : Nat) (mem : Nat → uchar) : Nat → uchar :=
  fun a =>
    if ea1 ≤ a ∧ a < ea2 then
      match li.get? (pos + (a - ea1)) with
      | some b => b
      | none => mem a
    else mem a

/-- What one recorded call does to the destination memory: a copy stores its
bytes, the other calls leave the bytes alone. -/
def effect.apply (li : linput) (mem : Nat → uchar) : effect → (Nat → uchar)
  | .file2base pos ea1 ea2 => NesLdr.file2base li pos ea1 ea2 mem
  | _ => mem

/-- The destination memory after the recorded calls have been carried out in
call order. -/
def materialise (li : linput) (es : List effect) (mem : Nat → uchar) : Nat → uchar :=
  es.foldl (fun mem e => e.apply li mem) mem

/-! ## nes.cpp: vectors and entry points -/

/-- Modelled from the spec: the host call `get_word(ea)`, which is not code
of this repository: the 2-byte little-endian word of the destination memory
`mem` at `ea`. -/
def get_word (mem : Nat → uchar) (ea : Nat) : Nat :=
  (mem ea).val + 256 * (mem (ea + 1)).val

/-- The function `get_vector` of nes.cpp. -/
def get_vector (mem : Nat → uchar) (vec : Nat) : Nat := get_word mem vec

/-- A call `add_entry(ord, ea, name, true)`. -/
structure entry_point where
  ord : Nat
  ea : Nat
  name : String
  deriving DecidableEq, Repr

/-- The function `add_entry_points` of nes.cpp: its `add_entry` calls in call
order and the value it returns (the `name_vector` calls, which name the vector
words and do not change the bytes, are not recorded). -/
def add_entry_points (mem : Nat → uchar) : List entry_point × Bool :=
  let ea1 := get_vector mem NMI_VECTOR_START_ADDRESS
  let ea2 := get_vector mem RESET_VECTOR_START_ADDRESS
  let ea3 := get_vector mem IRQ_VECTOR_START_ADDRESS
  ([⟨ea1, ea1, "NMI_routine"⟩, ⟨ea2, ea2, "RESET_routine"⟩, ⟨ea3, ea3, "IRQ_routine"⟩], true)

/-- The members of the host record `inf` that `set_ida_export_data` sets. -/
structure ida_inf where
  startIP : Nat
  beginEA : Nat
  start_cs : Nat
  minEA : Nat
  maxEA : Nat
  deriving DecidableEq, Repr

/-- The function `set_ida_export_data` of nes.cpp. -/
def set_ida_export_data (mem : Nat → uchar) : ida_inf :=
  let reset := get_vector mem RESET_VECTOR_START_ADDRESS
  { startIP := reset, beginEA := reset, start_cs := 0, minEA := RAM_START_ADDRESS,
    maxEA := ROM_START_ADDRESS + ROM_SIZE }

/-! ## nes.cpp: description of the image -/

/-- The macro `YES_NO( condition )` of nes.cpp. -/
def YES_NO (condition : Bool) : String := if condition then "yes" else "no"

/-- The part of mappers.h that `get_mapper_name` uses; it is not among the
sources at hand and is taken as a parameter. -/
structure mapper_names_table where
  MAPPER_LAST : Nat
  MAPPER_NOT_SUPPORTED : String
  mapper_names : Nat → String

/-- The function `get_mapper_name` of nes.cpp. -/
def get_mapper_name (t : mapper_names_table) (mapper : uchar) : String :=
  if mapper.val > t.MAPPER_LAST then t.MAPPER_NOT_SUPPORTED else t.mapper_names mapper.val

/-- The values that `describe_rom_image` hands to its `describe` calls after
the format strings, line by line. -/
structure rom_description where
  valid_image_header : String
  prg_rom_page_count : Nat
  chr_rom_page_count : Nat
  mirroring : String
  sram_enabled : String
  trainer : String
  four_screen_vram_layout : String
  mapper_name : String
  mapper : Nat
  deriving DecidableEq, Repr

/-- The function `describe_rom_image` of nes.cpp: what it reports, and the
header it leaves behind. -/
def describe_rom_image (t : mapper_names_table) (hdr : ines_hdr) :
    rom_description × ines_hdr :=
  let mapper : uchar := hdr.mapper
  ({ valid_image_header := YES_NO (!is_corrupt_ines_hdr hdr),
     prg_rom_page_count := hdr.prg_page_count_16k.val,
     chr_rom_page_count := hdr.chr_page_count_8k.val,
     mirroring :=
       if INES_MASK_H_MIRRORING hdr.rom_control_byte_0.val ≠ 0 then "horizontal"
       else "vertical",
     sram_enabled := YES_NO (decide (INES_MASK_SRAM hdr.rom_control_byte_0.val ≠ 0)),
     trainer := YES_NO (decide (INES_MASK_TRAINER hdr.rom_control_byte_0.val ≠ 0)),
     four_screen_vram_layout :=
       YES_NO (decide (INES_MASK_VRAM_LAYOUT hdr.rom_control_byte_0.val ≠ 0)),
     mapper_name := get_mapper_name t mapper,
     mapper := mapper.val },
   hdr)

set_option maxRecDepth 8000

/-! ## Auxiliary facts -/

theorem memcmp_bytes_eq_zero_iff (a b : List uchar) (h : a.length = b.length) :
    memcmp_bytes a b = 0 ↔ a = b := by
  induction a generalizing b with
  | nil =>
    cases b with
    | nil => simp [memcmp_bytes]
    | cons y ys => simp at h
  | cons x xs ih =>
    cases b with
    | nil => simp at h
    | cons y ys =>
      have hl : xs.length = ys.length := by simpa using h
      by_cases hxy : x = y
      · simp [memcmp_bytes, hxy, ih ys hl]
      · by_cases hlt : x < y <;> simp [memcmp_bytes, hxy, hlt]

theorem length_succ_le_cons {α : Type} {n : Nat} {l : List α} (h : n + 1 ≤ l.length) :
    ∃ a t, l = a :: t ∧ n ≤ t.length := by
  cases l with
  | nil => simp at h
  | cons a t => exact ⟨a, t, rfl, by simpa using h⟩

theorem is_corrupt_iff (h : ines_hdr) :
    is_corrupt_ines_hdr h = true ↔ h.reserved ≠ List.replicate 7 0 := by
  obtain ⟨i0, i1, i2, t, p, c, cb0, cb1, r, r0, r1, r2, r3, r4, r5, r6⟩ := h
  simp only [is_corrupt_ines_hdr, memcmp, memset, ines_hdr.bytes, ines_hdr.reserved,
    OFFSET_RESERVED, SIZEOF_RESERVED, decide_eq_true_eq]
  rw [Ne, memcmp_bytes_eq_zero_iff _ _ (by simp)]
  simp [eq_comm]

/-- The bytes the signature test of `fix_ines_hdr` looks at: header bytes 7..14. -/
theorem fix_ines_hdr_eq (h : ines_hdr) :
    fix_ines_hdr h =
      if [h.rom_control_byte_1, h.ram_bank_count_8k, h.reserved_0, h.reserved_1,
          h.reserved_2, h.reserved_3, h.reserved_4, h.reserved_5] = diskdude then
        { h with rom_control_byte_1 := 0, ram_bank_count_8k := 0, reserved_0 := 0,
                 reserved_1 := 0, reserved_2 := 0, reserved_3 := 0, reserved_4 := 0,
                 reserved_5 := 0, reserved_6 := 0 }
      else
        { h with reserved_0 := 0, reserved_1 := 0, reserved_2 := 0, reserved_3 := 0,
                 reserved_4 := 0, reserved_5 := 0, reserved_6 := 0 } := by
  obtain ⟨i0, i1, i2, t, p, c, cb0, cb1, r, r0, r1, r2, r3, r4, r5, r6⟩ := h
  have hm : memcmp (ines_hdr.bytes ⟨i0, i1, i2, t, p, c, cb0, cb1, r, r0, r1, r2, r3, r4, r5, r6⟩
      |>.drop OFFSET_ROM_CONTROL_BYTE_1) diskdude diskdude.length = 0 ↔
      [cb1, r, r0, r1, r2, r3, r4, r5] = diskdude := by
    simp only [memcmp, ines_hdr.bytes, OFFSET_ROM_CONTROL_BYTE_1]
    rw [memcmp_bytes_eq_zero_iff _ _ (by simp [diskdude])]
    simp [diskdude]
  unfold fix_ines_hdr
  by_cases hd : [cb1, r, r0, r1, r2, r3, r4, r5] = diskdude
  · rw [if_pos (hm.mpr hd)]
    simp only [hd, if_true]
    simp [memset, ines_hdr.bytes, ines_hdr.of_bytes, OFFSET_ROM_CONTROL_BYTE_1,
      OFFSET_RESERVED, SIZEOF_RESERVED]
  · rw [if_neg (fun h => hd (hm.mp h))]
    simp only [hd, if_false]
    simp [memset, ines_hdr.bytes, ines_hdr.of_bytes, OFFSET_RESERVED, SIZEOF_RESERVED]

theorem one_lor_ne_zero (x : Nat) : 1 ||| x ≠ 0 := by
  intro h
  have := congrArg (fun v => Nat.testBit v 0) h
  simp at this

/-- On an input of at least 16 bytes `accept_file` looks at `n` and at the
first four bytes only. -/
theorem accept_file_of_long (AF : Nat) (li : linput) (n : Int) (hlen : 16 ≤ li.length) :
    accept_file AF li n =
      if n = 0 ∧ li.take 4 = [0x4E, 0x45, 0x53, 0x1A] then 1 ||| AF else 0 := by
  obtain ⟨b0, l0, rfl, hl0⟩ := length_succ_le_cons hlen
  obtain ⟨b1, l1, rfl, hl1⟩ := length_succ_le_cons hl0
  obtain ⟨b2, l2, rfl, hl2⟩ := length_succ_le_cons hl1
  obtain ⟨b3, l3, rfl, hl3⟩ := length_succ_le_cons hl2
  obtain ⟨b4, l4, rfl, hl4⟩ := length_succ_le_cons hl3
  obtain ⟨b5, l5, rfl, hl5⟩ := length_succ_le_cons hl4
  obtain ⟨b6, l6, rfl, hl6⟩ := length_succ_le_cons hl5
  obtain ⟨b7, l7, rfl, hl7⟩ := length_succ_le_cons hl6
  obtain ⟨b8, l8, rfl, hl8⟩ := length_succ_le_cons hl7
  obtain ⟨b9, l9, rfl, hl9⟩ := length_succ_le_cons hl8
  obtain ⟨b10, l10, rfl, hl10⟩ := length_succ_le_cons hl9
  obtain ⟨b11, l11, rfl, hl11⟩ := length_succ_le_cons hl10
  obtain ⟨b12, l12, rfl, hl12⟩ := length_succ_le_cons hl11
  obtain ⟨b13, l13, rfl, hl13⟩ := length_succ_le_cons hl12
  obtain ⟨b14, l14, rfl, hl14⟩ := length_succ_le_cons hl13
  obtain ⟨b15, l15, rfl, -⟩ := length_succ_le_cons hl14
  have hq : qlread (b0 :: b1 :: b2 :: b3 :: b4 :: b5 :: b6 :: b7 :: b8 :: b9 :: b10 :: b11 :: b12 :: b13 :: b14 :: b15 :: l15) 0 INES_HDR_SIZE = [b0, b1, b2, b3, b4, b5, b6, b7, b8, b9, b10, b11, b12, b13, b14, b15] := by
    simp [qlread, INES_HDR_SIZE]
  have hs : ¬ qlsize (b0 :: b1 :: b2 :: b3 :: b4 :: b5 :: b6 :: b7 :: b8 :: b9 :: b10 :: b11 :: b12 :: b13 :: b14 :: b15 :: l15) < INES_HDR_SIZE := by
    simp [qlsize, INES_HDR_SIZE]
  have hl : ¬ [b0, b1, b2, b3, b4, b5, b6, b7, b8, b9, b10, b11, b12, b13, b14, b15].length ≠ INES_HDR_SIZE := by
    simp [INES_HDR_SIZE]
  have ho : (ines_hdr.of_bytes [b0, b1, b2, b3, b4, b5, b6, b7, b8, b9, b10, b11, b12, b13, b14, b15]).bytes.drop OFFSET_ID = [b0, b1, b2, b3, b4, b5, b6, b7, b8, b9, b10, b11, b12, b13, b14, b15] := rfl
  have ht : (ines_hdr.of_bytes [b0, b1, b2, b3, b4, b5, b6, b7, b8, b9, b10, b11, b12, b13, b14, b15]).term = b3 := rfl
  have hm : memcmp NES_MAGIC [b0, b1, b2, b3, b4, b5, b6, b7, b8, b9, b10, b11, b12, b13, b14, b15] SIZEOF_ID = 0 ↔ [b0, b1, b2] = [0x4E, 0x45, 0x53] := by
    simp only [memcmp, NES_MAGIC, SIZEOF_ID]
    rw [memcmp_bytes_eq_zero_iff _ _ (by simp)]
    simp [eq_comm]
  have h4 : List.take 4 (b0 :: b1 :: b2 :: b3 :: b4 :: b5 :: b6 :: b7 :: b8 :: b9 :: b10 :: b11 :: b12 :: b13 :: b14 :: b15 :: l15) = [0x4E, 0x45, 0x53, 0x1A] ↔
      [b0, b1, b2] = [0x4E, 0x45, 0x53] ∧ b3 = 0x1A := by
    simp only [List.take_succ_cons, List.take_zero, List.cons.injEq, and_true]
    tauto
  unfold accept_file
  simp only [hq, if_neg hs, if_neg hl, ho, ht, h4]
  by_cases hn : n = 0
  · by_cases hb : [b0, b1, b2] = [0x4E, 0x45, 0x53]
    · by_cases h3 : b3 = 0x1A
      · have hc : ¬ (memcmp NES_MAGIC [b0, b1, b2, b3, b4, b5, b6, b7, b8, b9, b10, b11, b12, b13, b14, b15] SIZEOF_ID ≠ 0 ∨ b3 ≠ 0x1A) := by
          rw [not_or]; exact ⟨not_not.mpr (hm.mpr hb), not_not.mpr h3⟩
        rw [if_neg (not_not.mpr hn), if_neg hc, if_pos ⟨hn, hb, h3⟩]
      · rw [if_neg (not_not.mpr hn), if_pos (Or.inr h3), if_neg (fun h => h3 h.2.2)]
    · rw [if_neg (not_not.mpr hn), if_pos (Or.inl (fun h => hb (hm.mp h))),
        if_neg (fun h => hb h.2.1)]
  · rw [if_pos hn, if_neg (fun h => hn h.1)]

theorem accept_file_of_short (AF : Nat) (li : linput) (n : Int) (hlen : li.length < 16) :
    accept_file AF li n = 0 := by
  simp [accept_file, qlsize, INES_HDR_SIZE, hlen]

/-! ## Format detection -/

/-- C1: `accept_file` returns a non-zero value exactly when `n` is 0, the
input has at least 16 bytes and its first four bytes are `N`, `E`, `S`, 0x1A;
two inputs of at least 16 bytes with the same first four bytes get the same
answer. -/
theorem accept_file_recognized_iff (ACCEPT_FIRST : Nat) (li : linput) (n : Int) :
    (accept_file ACCEPT_FIRST li n ≠ 0 ↔
      n = 0 ∧ 16 ≤ li.length ∧ li.take 4 = [0x4E, 0x45, 0x53, 0x1A]) ∧
    (∀ li2 : linput, 16 ≤ li.length → 16 ≤ li2.length → li.take 4 = li2.take 4 →
      accept_file ACCEPT_FIRST li n = accept_file ACCEPT_FIRST li2 n) := by
  constructor
  · by_cases hlen : 16 ≤ li.length
    · rw [accept_file_of_long _ _ _ hlen]
      by_cases hc : n = 0 ∧ li.take 4 = [0x4E, 0x45, 0x53, 0x1A]
      · simp only [hc, and_self, if_true]
        simp [hlen, one_lor_ne_zero]
      · rw [if_neg hc]
        simp only [ne_eq, not_true_eq_false, false_iff]
        tauto
    · rw [accept_file_of_short _ _ _ (by omega)]
      simp only [ne_eq, not_true_eq_false, false_iff]
      tauto
  · intro li2 h1 h2 h4
    rw [accept_file_of_long _ _ _ h1, accept_file_of_long _ _ _ h2, h4]

/-! ## Corruption check and repair -/

theorem reserved_ne_zeros_iff (h : ines_hdr) :
    h.reserved ≠ List.replicate 7 0 ↔ ∃ b ∈ h.reserved, b ≠ 0 := by
  obtain ⟨i0, i1, i2, t, p, c, cb0, cb1, r, r0, r1, r2, r3, r4, r5, r6⟩ := h
  simp only [ines_hdr.reserved, List.replicate, ne_eq, List.cons.injEq, and_true,
    List.mem_cons, List.mem_singleton, exists_eq_or_imp, exists_eq_left, List.not_mem_nil,
    false_and, exists_false, or_false]
  tauto

/-- C2: `is_corrupt_ines_hdr` is true exactly when one of the seven reserved
bytes (header bytes 9..15) is non-zero, and two headers with the same reserved
bytes get the same answer. -/
theorem is_corrupt_ines_hdr_iff (h : ines_hdr) :
    (is_corrupt_ines_hdr h = true ↔ ∃ b ∈ h.reserved, b ≠ 0) ∧
    h.reserved = h.bytes.drop 9 ∧
    (∀ h2 : ines_hdr, h2.reserved = h.reserved →
      is_corrupt_ines_hdr h2 = is_corrupt_ines_hdr h) := by
  refine ⟨?_, rfl, ?_⟩
  · rw [is_corrupt_iff, reserved_ne_zeros_iff]
  · intro h2 he
    rw [Bool.eq_iff_iff, is_corrupt_iff, is_corrupt_iff, he]

/-- C3: a header with a non-zero reserved byte is reported corrupt, and after
`fix_ines_hdr` it is not. -/
theorem fix_ines_hdr_clears_corrupt (h : ines_hdr) (hne : ∃ b ∈ h.reserved, b ≠ 0) :
    is_corrupt_ines_hdr h = true ∧ is_corrupt_ines_hdr (fix_ines_hdr h) = false := by
  constructor
  · rw [is_corrupt_iff, reserved_ne_zeros_iff]; exact hne
  · rw [← Bool.not_eq_true, is_corrupt_iff, not_not, fix_ines_hdr_eq]
    split <;> rfl

theorem fix_ines_hdr_clears_corrupt_witness :
    (∃ b ∈ (ines_hdr.of_bytes
        [0x4E, 0x45, 0x53, 0x1A, 2, 1, 0x10, 0x44, 0x69, 0x73, 0x6B, 0x44, 0x75, 0x64, 0x65,
          0x21]).reserved, b ≠ 0) ∧
    is_corrupt_ines_hdr (ines_hdr.of_bytes
        [0x4E, 0x45, 0x53, 0x1A, 2, 1, 0x10, 0x44, 0x69, 0x73, 0x6B, 0x44, 0x75, 0x64, 0x65,
          0x21]) = true ∧
    is_corrupt_ines_hdr (fix_ines_hdr (ines_hdr.of_bytes
        [0x4E, 0x45, 0x53, 0x1A, 2, 1, 0x10, 0x44, 0x69, 0x73, 0x6B, 0x44, 0x75, 0x64, 0x65,
          0x21])) = false :=
  ⟨⟨0x21, by decide, by decide⟩, fix_ines_hdr_clears_corrupt _ ⟨0x21, by decide, by decide⟩⟩

/-- C4: on a header whose seven reserved bytes are all zero
`is_corrupt_ines_hdr` is false and `fix_ines_hdr` returns the header
unchanged, in all 16 bytes. -/
theorem fix_ines_hdr_noop_of_reserved_zero (h : ines_hdr) (hz : ∀ b ∈ h.reserved, b = 0) :
    is_corrupt_ines_hdr h = false ∧ fix_ines_hdr h = h ∧
      (fix_ines_hdr h).bytes = h.bytes := by
  have hnc : ¬ (h.reserved ≠ List.replicate 7 0) := by
    rw [reserved_ne_zeros_iff]
    rintro ⟨b, hb, hb0⟩
    exact hb0 (hz b hb)
  have hfix : fix_ines_hdr h = h := by
    rw [fix_ines_hdr_eq]
    obtain ⟨i0, i1, i2, t, p, c, cb0, cb1, r, r0, r1, r2, r3, r4, r5, r6⟩ := h
    simp only [ines_hdr.reserved, List.replicate, ne_eq, not_not, List.cons.injEq,
      and_true] at hnc
    obtain ⟨rfl, rfl, rfl, rfl, rfl, rfl, rfl⟩ := hnc
    have hd : ¬ [cb1, r, (0 : uchar), 0, 0, 0, 0, 0] = diskdude := by
      simp [diskdude]
    simp only [hd, if_false]
  refine ⟨?_, hfix, by rw [hfix]⟩
  rw [← Bool.not_eq_true, is_corrupt_iff]
  exact hnc

theorem fix_ines_hdr_noop_of_reserved_zero_witness :
    (∀ b ∈ (ines_hdr.of_bytes
        [0x4E, 0x45, 0x53, 0x1A, 2, 1, 0x14, 0x40, 3, 0, 0, 0, 0, 0, 0, 0]).reserved, b = 0) ∧
    is_corrupt_ines_hdr (ines_hdr.of_bytes
        [0x4E, 0x45, 0x53, 0x1A, 2, 1, 0x14, 0x40, 3, 0, 0, 0, 0, 0, 0, 0]) = false ∧
    fix_ines_hdr (ines_hdr.of_bytes
        [0x4E, 0x45, 0x53, 0x1A, 2, 1, 0x14, 0x40, 3, 0, 0, 0, 0, 0, 0, 0]) =
      ines_hdr.of_bytes [0x4E, 0x45, 0x53, 0x1A, 2, 1, 0x14, 0x40, 3, 0, 0, 0, 0, 0, 0, 0] ∧
    (fix_ines_hdr (ines_hdr.of_bytes
        [0x4E, 0x45, 0x53, 0x1A, 2, 1, 0x14, 0x40, 3, 0, 0, 0, 0, 0, 0, 0])).bytes =
      (ines_hdr.of_bytes
        [0x4E, 0x45, 0x53, 0x1A, 2, 1, 0x14, 0x40, 3, 0, 0, 0, 0, 0, 0, 0]).bytes :=
  ⟨by decide, fix_ines_hdr_noop_of_reserved_zero _ (by decide)⟩

/-- C5, as stated, fails: on a header with a non-zero reserved byte and no
`DiskDude` signature the repaired header keeps a non-zero `rom_control_byte_1`
(byte 7) and `ram_bank_count_8k` (byte 8). -/
theorem fix_ines_hdr_keeps_control_byte_1 :
    (fix_ines_hdr (ines_hdr.of_bytes
        [0x4E, 0x45, 0x53, 0x1A, 2, 1, 0x10, 0x40, 3, 0, 0, 0, 0, 0, 0, 1])).bytes =
      [0x4E, 0x45, 0x53, 0x1A, 2, 1, 0x10, 0x40, 3, 0, 0, 0, 0, 0, 0, 0] ∧
    ¬ (∀ b ∈ (fix_ines_hdr (ines_hdr.of_bytes
        [0x4E, 0x45, 0x53, 0x1A, 2, 1, 0x10, 0x40, 3, 0, 0, 0, 0, 0, 0, 1])).bytes.drop 7,
        b = 0) := by
  decide

/-- C5, amended: after `fix_ines_hdr` the seven reserved bytes (9..15) are
zero; `rom_control_byte_1` and `ram_bank_count_8k` (bytes 7 and 8) are zero
when header bytes 7..14 spell `DiskDude` and are kept otherwise. -/
theorem fix_ines_hdr_zeroes (h : ines_hdr) :
    (fix_ines_hdr h).reserved = List.replicate 7 0 ∧
    ((h.bytes.drop 7).take 8 = diskdude →
      (fix_ines_hdr h).bytes.drop 7 = List.replicate 9 0) ∧
    ((h.bytes.drop 7).take 8 ≠ diskdude →
      (fix_ines_hdr h).rom_control_byte_1 = h.rom_control_byte_1 ∧
      (fix_ines_hdr h).ram_bank_count_8k = h.ram_bank_count_8k) := by
  rw [fix_ines_hdr_eq]
  obtain ⟨i0, i1, i2, t, p, c, cb0, cb1, r, r0, r1, r2, r3, r4, r5, r6⟩ := h
  have hb : (ines_hdr.bytes ⟨i0, i1, i2, t, p, c, cb0, cb1, r, r0, r1, r2, r3, r4, r5, r6⟩
      |>.drop 7).take 8 = [cb1, r, r0, r1, r2, r3, r4, r5] := rfl
  rw [hb]
  refine ⟨?_, ?_, ?_⟩
  · split <;> rfl
  · intro hd
    rw [if_pos hd]; rfl
  · intro hd
    rw [if_neg hd]; exact ⟨rfl, rfl⟩

/-- C6: `fix_ines_hdr` leaves `id` (bytes 0..2), `term` (byte 3),
`prg_page_count_16k` (byte 4), `chr_page_count_8k` (byte 5) and
`rom_control_byte_0` (byte 6) as they were. -/
theorem fix_ines_hdr_frame (h : ines_hdr) :
    (fix_ines_hdr h).id_0 = h.id_0 ∧ (fix_ines_hdr h).id_1 = h.id_1 ∧
    (fix_ines_hdr h).id_2 = h.id_2 ∧ (fix_ines_hdr h).term = h.term ∧
    (fix_ines_hdr h).prg_page_count_16k = h.prg_page_count_16k ∧
    (fix_ines_hdr h).chr_page_count_8k = h.chr_page_count_8k ∧
    (fix_ines_hdr h).rom_control_byte_0 = h.rom_control_byte_0 ∧
    (fix_ines_hdr h).bytes.take 7 = h.bytes.take 7 := by
  rw [fix_ines_hdr_eq]
  split <;> exact ⟨rfl, rfl, rfl, rfl, rfl, rfl, rfl, rfl⟩

/-! ## Masks -/

theorem mask_high_nibble_shift : ∀ a < 256, (a &&& 0xF0) >>> 4 = a / 16 := by decide

theorem mask_high_nibble : ∀ a < 256, a &&& 0xF0 = 16 * (a / 16) := by decide

theorem lor_nibbles : ∀ x < 16, ∀ y < 16, x ||| 16 * y = x + 16 * y := by decide

theorem mask_trainer_iff : ∀ a < 256, (INES_MASK_TRAINER a ≠ 0 ↔ a.testBit 2 = true) := by
  unfold INES_MASK_TRAINER
  decide

/-- The macro as arithmetic on nibbles. -/
theorem INES_MASK_MAPPER_VERSION_eq (cb0 cb1 : uchar) :
    INES_MASK_MAPPER_VERSION cb0.val cb1.val = cb0.val / 16 + 16 * (cb1.val / 16) := by
  unfold INES_MASK_MAPPER_VERSION
  rw [mask_high_nibble_shift _ cb0.isLt, mask_high_nibble _ cb1.isLt]
  exact lor_nibbles _ (by have := cb0.isLt; omega) _ (by have := cb1.isLt; omega)

/-- C7: for all bytes `cb0`, `cb1` the macro `INES_MASK_MAPPER_VERSION` is
`(cb0 >> 4) | (cb1 & 0xF0)`, lies in 0..255, has the high nibble of `cb0` as
its low nibble and the high nibble of `cb1` as its high nibble, and is the
same for bytes that differ only in their low nibbles. -/
theorem INES_MASK_MAPPER_VERSION_nibbles (cb0 cb1 : uchar) :
    INES_MASK_MAPPER_VERSION cb0.val cb1.val = (cb0.val >>> 4) ||| (cb1.val &&& 0xF0) ∧
    INES_MASK_MAPPER_VERSION cb0.val cb1.val < 256 ∧
    INES_MASK_MAPPER_VERSION cb0.val cb1.val % 16 = cb0.val / 16 ∧
    INES_MASK_MAPPER_VERSION cb0.val cb1.val / 16 = cb1.val / 16 ∧
    (∀ cb0' cb1' : uchar, cb0'.val / 16 = cb0.val / 16 → cb1'.val / 16 = cb1.val / 16 →
      INES_MASK_MAPPER_VERSION cb0'.val cb1'.val =
        INES_MASK_MAPPER_VERSION cb0.val cb1.val) := by
  have h0 := cb0.isLt
  have h1 := cb1.isLt
  refine ⟨?_, ?_, ?_, ?_, ?_⟩
  · rw [INES_MASK_MAPPER_VERSION_eq, Nat.shiftRight_eq_div_pow, mask_high_nibble _ h1]
    exact (lor_nibbles _ (by omega) _ (by omega)).symm
  · rw [INES_MASK_MAPPER_VERSION_eq]; omega
  · rw [INES_MASK_MAPPER_VERSION_eq]; omega
  · rw [INES_MASK_MAPPER_VERSION_eq]; omega
  · intro cb0' cb1' e0 e1
    rw [INES_MASK_MAPPER_VERSION_eq, INES_MASK_MAPPER_VERSION_eq, e0, e1]

/-! ## Bank loading -/

/-- The size of the trainer when the header announces one, else 0. -/
theorem trainer_size_eq (hdr : ines_hdr) :
    (if INES_MASK_TRAINER hdr.rom_control_byte_0.val ≠ 0 then TRAINER_SIZE else 0) =
      if hdr.rom_control_byte_0.val.testBit 2 then 512 else 0 := by
  by_cases hb : hdr.rom_control_byte_0.val.testBit 2 = true
  · rw [if_pos ((mask_trainer_iff _ hdr.rom_control_byte_0.isLt).mpr hb), if_pos hb]; rfl
  · rw [if_neg (fun h => hb ((mask_trainer_iff _ hdr.rom_control_byte_0.isLt).mp h)),
      if_neg hb]

theorem load_prg_rom_bank_eq (hdr : ines_hdr) (n : uchar) (address : Nat)
    (hp : 1 ≤ hdr.prg_page_count_16k.val) (hn : 1 ≤ n.val) :
    load_prg_rom_bank hdr n address =
      [effect.file2base
        (16 + (if hdr.rom_control_byte_0.val.testBit 2 then 512 else 0) + (n.val - 1) * 16384)
        address (address + 16384)] := by
  have hn0 : ¬ n = 0 := by
    intro h; rw [h] at hn; simp at hn
  have hp0 : ¬ hdr.prg_page_count_16k = 0 := by
    intro h; rw [h] at hp; simp at hp
  unfold load_prg_rom_bank
  rw [if_neg (by tauto), trainer_size_eq]
  rfl

theorem load_8k_prg_rom_bank_eq (hdr : ines_hdr) (n : uchar) (address : Nat)
    (hp : 1 ≤ hdr.prg_page_count_16k.val) (hn : 1 ≤ n.val) :
    load_8k_prg_rom_bank hdr n address =
      [effect.file2base
        (16 + (if hdr.rom_control_byte_0.val.testBit 2 then 512 else 0) + (n.val - 1) * 8192)
        address (address + 8192)] := by
  have hn0 : ¬ n = 0 := by
    intro h; rw [h] at hn; simp at hn
  have hp0 : ¬ hdr.prg_page_count_16k = 0 := by
    intro h; rw [h] at hp; simp at hp
  unfold load_8k_prg_rom_bank
  rw [if_neg (by tauto), trainer_size_eq]
  rfl

theorem to_uchar_val (x : Int) (h0 : 0 ≤ x) (h1 : x < 256) :
    (to_uchar x).val = x.toNat := by
  have hm : x % 256 = x := Int.emod_eq_of_lt h0 h1
  have hlt : x.toNat < 256 := by omega
  simp only [to_uchar, hm, Fin.ofNat]
  exact Nat.mod_eq_of_lt hlt

/-- C8: with at least one PRG page in the header and a bank number `n` in
1..255, `load_prg_rom_bank` makes exactly one copy, of 16384 bytes, from file
offset 16 + (512 if bit 2 of `rom_control_byte_0` is set, else 0) +
(n - 1) * 16384 to the given address. -/
theorem load_prg_rom_bank_copy (hdr : ines_hdr) (n : uchar) (address : Nat)
    (hp : 1 ≤ hdr.prg_page_count_16k.val) (hn : 1 ≤ n.val) :
    load_prg_rom_bank hdr n address =
      [effect.file2base
        (16 + (if hdr.rom_control_byte_0.val.testBit 2 then 512 else 0) + (n.val - 1) * 16384)
        address (address + 16384)] :=
  load_prg_rom_bank_eq hdr n address hp hn

theorem load_prg_rom_bank_copy_witness :
    1 ≤ (ines_hdr.of_bytes
      [0x4E, 0x45, 0x53, 0x1A, 4, 1, 0x14, 0, 0, 0, 0, 0, 0, 0, 0, 0]).prg_page_count_16k.val ∧
    1 ≤ (3 : uchar).val ∧
    load_prg_rom_bank
        (ines_hdr.of_bytes [0x4E, 0x45, 0x53, 0x1A, 4, 1, 0x14, 0, 0, 0, 0, 0, 0, 0, 0, 0])
        3 0xC000 =
      [effect.file2base (16 + 512 + 2 * 16384) 0xC000 0x10000] :=
  ⟨by decide, by decide,
   load_prg_rom_bank_copy
    (ines_hdr.of_bytes [0x4E, 0x45, 0x53, 0x1A, 4, 1, 0x14, 0, 0, 0, 0, 0, 0, 0, 0, 0])
    3 0xC000 (by decide) (by decide)⟩

/-- C9: with at least one PRG page in the header and a unit number `n` in
1..255, `load_8k_prg_rom_bank` makes exactly one copy, of 8192 bytes, from
file offset 16 + trainer size + (n - 1) * 8192; so for `k` in 1..127 the
8 KiB unit 2k-1 starts at the file offset of the 16 KiB page `k` and unit 2k
starts 8192 bytes later. -/
theorem load_8k_prg_rom_bank_copy (hdr : ines_hdr) (n : uchar) (address : Nat)
    (hp : 1 ≤ hdr.prg_page_count_16k.val) (hn : 1 ≤ n.val) :
    load_8k_prg_rom_bank hdr n address =
      [effect.file2base
        (16 + (if hdr.rom_control_byte_0.val.testBit 2 then 512 else 0) + (n.val - 1) * 8192)
        address (address + 8192)] ∧
    (∀ k : uchar, 1 ≤ k.val → k.val ≤ 127 → ∃ off : Nat,
      load_prg_rom_bank hdr k address = [effect.file2base off address (address + 16384)] ∧
      load_8k_prg_rom_bank hdr (to_uchar (2 * k.val - 1)) address =
        [effect.file2base off address (address + 8192)] ∧
      load_8k_prg_rom_bank hdr (to_uchar (2 * k.val)) address =
        [effect.file2base (off + 8192) address (address + 8192)]) := by
  refine ⟨load_8k_prg_rom_bank_eq hdr n address hp hn, ?_⟩
  intro k hk1 hk2
  have hk := k.isLt
  have e1 : (to_uchar (2 * (k.val : Int) - 1)).val = 2 * k.val - 1 := by
    rw [to_uchar_val _ (by omega) (by omega)]
    omega
  have e2 : (to_uchar (2 * (k.val : Int))).val = 2 * k.val := by
    rw [to_uchar_val _ (by omega) (by omega)]
    omega
  have h1 : 1 ≤ (to_uchar (2 * (k.val : Int) - 1)).val := by rw [e1]; omega
  have h2 : 1 ≤ (to_uchar (2 * (k.val : Int))).val := by rw [e2]; omega
  have a1 : (2 * k.val - 1 - 1) * 8192 = (k.val - 1) * 16384 := by omega
  have a2 : ∀ t : Nat, 16 + t + (2 * k.val - 1) * 8192 = 16 + t + (k.val - 1) * 16384 + 8192 := by
    intro t; omega
  refine ⟨16 + (if hdr.rom_control_byte_0.val.testBit 2 then 512 else 0) +
    (k.val - 1) * 16384, load_prg_rom_bank_eq hdr k address hp hk1, ?_, ?_⟩
  · rw [load_8k_prg_rom_bank_eq hdr _ address hp h1, e1, a1]
  · rw [load_8k_prg_rom_bank_eq hdr _ address hp h2, e2, a2]

theorem load_8k_prg_rom_bank_copy_witness :
    1 ≤ (ines_hdr.of_bytes
      [0x4E, 0x45, 0x53, 0x1A, 4, 1, 0x10, 0, 0, 0, 0, 0, 0, 0, 0, 0]).prg_page_count_16k.val ∧
    load_8k_prg_rom_bank
        (ines_hdr.of_bytes [0x4E, 0x45, 0x53, 0x1A, 4, 1, 0x10, 0, 0, 0, 0, 0, 0, 0, 0, 0])
        6 0xA000 =
      [effect.file2base (16 + 0 + 5 * 8192) 0xA000 0xC000] ∧
    (∃ off : Nat,
      load_prg_rom_bank
          (ines_hdr.of_bytes [0x4E, 0x45, 0x53, 0x1A, 4, 1, 0x10, 0, 0, 0, 0, 0, 0, 0, 0, 0])
          2 0xA000 = [effect.file2base off 0xA000 (0xA000 + 16384)] ∧
      load_8k_prg_rom_bank
          (ines_hdr.of_bytes [0x4E, 0x45, 0x53, 0x1A, 4, 1, 0x10, 0, 0, 0, 0, 0, 0, 0, 0, 0])
          (to_uchar (2 * ((2 : uchar).val : Int) - 1)) 0xA000 =
        [effect.file2base off 0xA000 (0xA000 + 8192)] ∧
      load_8k_prg_rom_bank
          (ines_hdr.of_bytes [0x4E, 0x45, 0x53, 0x1A, 4, 1, 0x10, 0, 0, 0, 0, 0, 0, 0, 0, 0])
          (to_uchar (2 * ((2 : uchar).val : Int))) 0xA000 =
        [effect.file2base (off + 8192) 0xA000 (0xA000 + 8192)]) :=
  ⟨by decide,
   (load_8k_prg_rom_bank_copy
      (ines_hdr.of_bytes [0x4E, 0x45, 0x53, 0x1A, 4, 1, 0x10, 0, 0, 0, 0, 0, 0, 0, 0, 0])
      6 0xA000 (by decide) (by decide)).1,
   (load_8k_prg_rom_bank_copy
      (ines_hdr.of_bytes [0x4E, 0x45, 0x53, 0x1A, 4, 1, 0x10, 0, 0, 0, 0, 0, 0, 0, 0, 0])
      6 0xA000 (by decide) (by decide)).2 2 (by decide) (by decide)⟩

theorem placements_load_first_last (hdr : ines_hdr) (hp : 1 ≤ hdr.prg_page_count_16k.val) :
    placements (load_first_last hdr) =
      [effect.file2base (16 + (if hdr.rom_control_byte_0.val.testBit 2 then 512 else 0))
         0x8000 0xC000,
       effect.file2base
         (16 + (if hdr.rom_control_byte_0.val.testBit 2 then 512 else 0) +
           (hdr.prg_page_count_16k.val - 1) * 16384)
         0xC000 0x10000] := by
  unfold load_first_last
  rw [load_prg_rom_bank_eq hdr 1 _ hp (by decide),
    load_prg_rom_bank_eq hdr hdr.prg_page_count_16k _ hp hp]
  rfl

/-- C10: when the mapper number of the header is a label of the first case
group of `load_rom_banks`, or no case label at all (the `default` label), and
the header has `p >= 1` PRG pages, the copies made are exactly two, in this
order: 16384 bytes from offset 16 + trainer size to 0x8000, then 16384 bytes
from offset 16 + trainer size + (p - 1) * 16384 to 0xC000; with `p = 2` and no
trainer the offsets are 16 and 16 + 16384. -/
theorem load_rom_banks_first_last (m : mappers) (hdr : ines_hdr)
    (hgrp : hdr.mapper.val ∈ m.labels_first_last ∨ hdr.mapper.val ∉ m.case_labels)
    (hp : 1 ≤ hdr.prg_page_count_16k.val) :
    placements (load_rom_banks m hdr) =
      [effect.file2base (16 + (if hdr.rom_control_byte_0.val.testBit 2 then 512 else 0))
         0x8000 0xC000,
       effect.file2base
         (16 + (if hdr.rom_control_byte_0.val.testBit 2 then 512 else 0) +
           (hdr.prg_page_count_16k.val - 1) * 16384)
         0xC000 0x10000] ∧
    (hdr.prg_page_count_16k.val = 2 → hdr.rom_control_byte_0.val.testBit 2 = false →
      placements (load_rom_banks m hdr) =
        [effect.file2base 16 0x8000 0xC000,
         effect.file2base (16 + 16384) 0xC000 0x10000]) := by
  have key : placements (load_rom_banks m hdr) = placements (load_first_last hdr) := by
    unfold load_rom_banks
    rcases hgrp with hin | hout
    · simp only [if_pos hin]
    · have h1 : hdr.mapper.val ∉ m.labels_first_last := fun h =>
        hout (by simp [mappers.case_labels, h])
      have h2 : ¬ hdr.mapper.val = m.MAPPER_HK_SF3 := fun h =>
        hout (by simp [mappers.case_labels, h])
      have h3 : hdr.mapper.val ∉ m.labels_first_second := fun h =>
        hout (by simp [mappers.case_labels, h])
      have h4 : ¬ hdr.mapper.val = m.MAPPER_MMC2 := fun h =>
        hout (by simp [mappers.case_labels, h])
      have h5 : ¬ hdr.mapper.val = m.MAPPER_TENGEN_RAMBO_1 := fun h =>
        hout (by simp [mappers.case_labels, h])
      simp only [if_neg h1, if_neg h2, if_neg h3, if_neg h4, if_neg h5]
      rfl
  rw [key, placements_load_first_last hdr hp]
  refine ⟨rfl, ?_⟩
  intro h2 ht
  rw [h2, ht]
  rfl

theorem load_rom_banks_first_last_witness :
    (ines_hdr.of_bytes
      [0x4E, 0x45, 0x53, 0x1A, 2, 1, 0xF0, 0xF0, 0, 0, 0, 0, 0, 0, 0, 0]).mapper.val = 255 ∧
    255 ∉ ines_mappers.case_labels ∧
    placements (load_rom_banks ines_mappers
        (ines_hdr.of_bytes [0x4E, 0x45, 0x53, 0x1A, 2, 1, 0xF0, 0xF0, 0, 0, 0, 0, 0, 0, 0, 0])) =
      [effect.file2base 16 0x8000 0xC000,
       effect.file2base (16 + 16384) 0xC000 0x10000] :=
  ⟨by decide, by decide,
   (load_rom_banks_first_last ines_mappers
    (ines_hdr.of_bytes [0x4E, 0x45, 0x53, 0x1A, 2, 1, 0xF0, 0xF0, 0, 0, 0, 0, 0, 0, 0, 0])
    (Or.inr (by decide)) (by decide)).2 (by decide) (by decide)⟩

/-! ## Case groups of the switch -/

/-- What pairwise distinct case labels give for the chain of tests. -/
theorem case_labels_nodup (m : mappers) (h : m.case_labels.Nodup) :
    m.MAPPER_HK_SF3 ∉ m.labels_first_last ∧
    (∀ x ∈ m.labels_first_second, x ∉ m.labels_first_last ∧ x ≠ m.MAPPER_HK_SF3) ∧
    (m.MAPPER_MMC2 ∉ m.labels_first_last ∧ m.MAPPER_MMC2 ≠ m.MAPPER_HK_SF3 ∧
      m.MAPPER_MMC2 ∉ m.labels_first_second) ∧
    (m.MAPPER_TENGEN_RAMBO_1 ∉ m.labels_first_last ∧
      m.MAPPER_TENGEN_RAMBO_1 ≠ m.MAPPER_HK_SF3 ∧
      m.MAPPER_TENGEN_RAMBO_1 ∉ m.labels_first_second ∧
      m.MAPPER_TENGEN_RAMBO_1 ≠ m.MAPPER_MMC2) := by
  unfold mappers.case_labels at h
  rw [List.nodup_append] at h
  obtain ⟨h1, h2, h3⟩ := h
  rw [List.nodup_append] at h1
  obtain ⟨h4, -, h6⟩ := h1
  rw [List.nodup_append] at h4
  obtain ⟨-, -, h9⟩ := h4
  have hk : m.MAPPER_HK_SF3 ∉ m.labels_first_last := fun hx =>
    h9 hx (List.mem_singleton_self _)
  have hB : ∀ x ∈ m.labels_first_second, x ∉ m.labels_first_last ∧ x ≠ m.MAPPER_HK_SF3 := by
    intro x hx
    refine ⟨fun hA => h6 (List.mem_append_left _ hA) hx, fun he => ?_⟩
    exact h6 (List.mem_append_right _ (by rw [he]; exact List.mem_singleton_self _)) hx
  have hin : ∀ y, y ∈ [m.MAPPER_MMC2, m.MAPPER_TENGEN_RAMBO_1] →
      y ∉ m.labels_first_last ∧ y ≠ m.MAPPER_HK_SF3 ∧ y ∉ m.labels_first_second := by
    intro y hy
    refine ⟨fun hA => ?_, fun he => ?_, fun hb => ?_⟩
    · exact h3 (List.mem_append_left _ (List.mem_append_left _ hA)) hy
    · exact h3 (List.mem_append_left _ (List.mem_append_right _
        (by rw [he]; exact List.mem_singleton_self _))) hy
    · exact h3 (List.mem_append_right _ hb) hy
  have hne : m.MAPPER_TENGEN_RAMBO_1 ≠ m.MAPPER_MMC2 := by
    intro he
    rw [he] at h2
    simp at h2
  have hm := hin m.MAPPER_MMC2 (by simp)
  have hr := hin m.MAPPER_TENGEN_RAMBO_1 (by simp)
  exact ⟨hk, hB, hm, hr.1, hr.2.1, hr.2.2, hne⟩

theorem ines_mappers_nodup : ines_mappers.case_labels.Nodup := by decide

/-- The local `mapper` holds the value of the macro. -/
theorem mapper_val (hdr : ines_hdr) :
    hdr.mapper.val =
      INES_MASK_MAPPER_VERSION hdr.rom_control_byte_0.val hdr.rom_control_byte_1.val := by
  have h0 := hdr.rom_control_byte_0.isLt
  have h1 := hdr.rom_control_byte_1.isLt
  have hlt : INES_MASK_MAPPER_VERSION hdr.rom_control_byte_0.val
      hdr.rom_control_byte_1.val < 256 := by
    rw [INES_MASK_MAPPER_VERSION_eq]; omega
  unfold ines_hdr.mapper
  rw [to_uchar_val _ (by omega) (by omega)]
  omega

theorem load_rom_banks_hk_sf3 (m : mappers) (hdr : ines_hdr) (hnd : m.case_labels.Nodup)
    (hm : hdr.mapper.val = m.MAPPER_HK_SF3) :
    load_rom_banks m hdr =
      load_prg_rom_bank hdr hdr.prg_page_count_16k PRG_ROM_BANK_LOW_ADDRESS ++
      load_prg_rom_bank hdr hdr.prg_page_count_16k PRG_ROM_BANK_HIGH_ADDRESS ++
      load_chr_rom_bank hdr 1 CHR_ROM_BANK_ADDRESS := by
  have h1 : hdr.mapper.val ∉ m.labels_first_last := by
    rw [hm]; exact (case_labels_nodup m hnd).1
  unfold load_rom_banks
  simp only [if_neg h1, if_pos hm]

theorem load_rom_banks_first_second (m : mappers) (hdr : ines_hdr) (hnd : m.case_labels.Nodup)
    (hm : hdr.mapper.val ∈ m.labels_first_second) :
    load_rom_banks m hdr =
      load_prg_rom_bank hdr 1 PRG_ROM_BANK_LOW_ADDRESS ++
      load_prg_rom_bank hdr 2 PRG_ROM_BANK_HIGH_ADDRESS ++
      load_chr_rom_bank hdr 1 CHR_ROM_BANK_ADDRESS := by
  obtain ⟨h1, h2⟩ := (case_labels_nodup m hnd).2.1 _ hm
  unfold load_rom_banks
  simp only [if_neg h1, if_neg h2, if_pos hm]

theorem load_rom_banks_mmc2 (m : mappers) (hdr : ines_hdr) (hnd : m.case_labels.Nodup)
    (hm : hdr.mapper.val = m.MAPPER_MMC2) :
    load_rom_banks m hdr =
      load_8k_prg_rom_bank hdr 1 PRG_ROM_BANK_LOW_ADDRESS ++
      load_8k_prg_rom_bank hdr (to_uchar ((hdr.prg_page_count_16k.val : Int) * 2 - 2))
        PRG_ROM_BANK_A000 ++
      load_prg_rom_bank hdr hdr.prg_page_count_16k PRG_ROM_BANK_HIGH_ADDRESS ++
      load_chr_rom_bank hdr 1 CHR_ROM_BANK_ADDRESS := by
  obtain ⟨h1, h2, h3⟩ := (case_labels_nodup m hnd).2.2.1
  rw [← hm] at h1 h2 h3
  unfold load_rom_banks
  simp only [if_neg h1, if_neg h2, if_neg h3, if_pos hm]

theorem load_rom_banks_rambo (m : mappers) (hdr : ines_hdr) (hnd : m.case_labels.Nodup)
    (hm : hdr.mapper.val = m.MAPPER_TENGEN_RAMBO_1) :
    load_rom_banks m hdr =
      load_8k_prg_rom_bank hdr (to_uchar ((hdr.prg_page_count_16k.val : Int) * 2))
        PRG_ROM_BANK_8000 ++
      load_8k_prg_rom_bank hdr (to_uchar ((hdr.prg_page_count_16k.val : Int) * 2))
        PRG_ROM_BANK_A000 ++
      load_8k_prg_rom_bank hdr (to_uchar ((hdr.prg_page_count_16k.val : Int) * 2))
        PRG_ROM_BANK_C000 ++
      load_8k_prg_rom_bank hdr (to_uchar ((hdr.prg_page_count_16k.val : Int) * 2))
        PRG_ROM_BANK_E000 ++
      load_chr_rom_bank hdr 1 CHR_ROM_BANK_ADDRESS := by
  obtain ⟨h1, h2, h3, h4⟩ := (case_labels_nodup m hnd).2.2.2
  rw [← hm] at h1 h2 h3 h4
  unfold load_rom_banks
  simp only [if_neg h1, if_neg h2, if_neg h3, if_neg h4, if_pos hm]

theorem load_prg_rom_bank_zero (hdr : ines_hdr) (address : Nat) :
    load_prg_rom_bank hdr 0 address = [] := by
  simp [load_prg_rom_bank]

theorem load_8k_prg_rom_bank_zero (hdr : ines_hdr) (address : Nat) :
    load_8k_prg_rom_bank hdr 0 address = [] := by
  simp [load_8k_prg_rom_bank]

theorem load_prg_rom_bank_no_pages (hdr : ines_hdr) (n : uchar) (address : Nat)
    (hp : hdr.prg_page_count_16k = 0) : load_prg_rom_bank hdr n address = [] := by
  simp [load_prg_rom_bank, hp]

theorem load_8k_prg_rom_bank_no_pages (hdr : ines_hdr) (n : uchar) (address : Nat)
    (hp : hdr.prg_page_count_16k = 0) : load_8k_prg_rom_bank hdr n address = [] := by
  simp [load_8k_prg_rom_bank, hp]

/-- C11: when the mapper number of the header is `MAPPER_HK_SF3` (the case
labels being pairwise distinct, as C demands) and the header has `p >= 1` PRG
pages, the copies made are exactly two, both of 16384 bytes from offset
16 + trainer size + (p - 1) * 16384, the first to 0x8000 and the second to
0xC000. -/
theorem load_rom_banks_last_last (m : mappers) (hdr : ines_hdr) (hnd : m.case_labels.Nodup)
    (hm : hdr.mapper.val = m.MAPPER_HK_SF3) (hp : 1 ≤ hdr.prg_page_count_16k.val) :
    placements (load_rom_banks m hdr) =
      [effect.file2base
         (16 + (if hdr.rom_control_byte_0.val.testBit 2 then 512 else 0) +
           (hdr.prg_page_count_16k.val - 1) * 16384)
         0x8000 0xC000,
       effect.file2base
         (16 + (if hdr.rom_control_byte_0.val.testBit 2 then 512 else 0) +
           (hdr.prg_page_count_16k.val - 1) * 16384)
         0xC000 0x10000] := by
  rw [load_rom_banks_hk_sf3 m hdr hnd hm,
    load_prg_rom_bank_eq hdr hdr.prg_page_count_16k _ hp hp,
    load_prg_rom_bank_eq hdr hdr.prg_page_count_16k _ hp hp]
  rfl

theorem load_rom_banks_last_last_witness :
    ines_mappers.case_labels.Nodup ∧
    (ines_hdr.of_bytes
      [0x4E, 0x45, 0x53, 0x1A, 4, 1, 0xB4, 0x50, 0, 0, 0, 0, 0, 0, 0, 0]).mapper.val =
        ines_mappers.MAPPER_HK_SF3 ∧
    placements (load_rom_banks ines_mappers
        (ines_hdr.of_bytes [0x4E, 0x45, 0x53, 0x1A, 4, 1, 0xB4, 0x50, 0, 0, 0, 0, 0, 0, 0, 0])) =
      [effect.file2base (16 + 512 + 3 * 16384) 0x8000 0xC000,
       effect.file2base (16 + 512 + 3 * 16384) 0xC000 0x10000] :=
  ⟨ines_mappers_nodup, by decide,
   load_rom_banks_last_last ines_mappers
    (ines_hdr.of_bytes [0x4E, 0x45, 0x53, 0x1A, 4, 1, 0xB4, 0x50, 0, 0, 0, 0, 0, 0, 0, 0])
    ines_mappers_nodup (by decide) (by decide)⟩

/-- C12: when the mapper number of the header is one of `MAPPER_AOROM`,
`MAPPER_FFE_F3XXX`, `MAPPER_COLOR_DREAMS`, `MAPPER_100_IN_1`, `MAPPER_NINA_1`
(the case labels being pairwise distinct) and the header has at least one PRG
page, the copies made are exactly two, each of 16384 bytes: from offset
16 + trainer size to 0x8000 and from offset 16 + trainer size + 16384 to
0xC000; with one PRG page the second copy is made all the same, and its source
starts where the declared PRG data ends. -/
theorem load_rom_banks_first_second_copies (m : mappers) (hdr : ines_hdr)
    (hnd : m.case_labels.Nodup) (hm : hdr.mapper.val ∈ m.labels_first_second)
    (hp : 1 ≤ hdr.prg_page_count_16k.val) :
    placements (load_rom_banks m hdr) =
      [effect.file2base (16 + (if hdr.rom_control_byte_0.val.testBit 2 then 512 else 0))
         0x8000 0xC000,
       effect.file2base
         (16 + (if hdr.rom_control_byte_0.val.testBit 2 then 512 else 0) + 16384)
         0xC000 0x10000] ∧
    (hdr.prg_page_count_16k.val = 1 → ∀ pos ea1 ea2 : Nat,
      (placements (load_rom_banks m hdr))[1]? = some (effect.file2base pos ea1 ea2) →
      16 + (if hdr.rom_control_byte_0.val.testBit 2 then 512 else 0) +
        hdr.prg_page_count_16k.val * 16384 ≤ pos) := by
  have key : placements (load_rom_banks m hdr) =
      [effect.file2base (16 + (if hdr.rom_control_byte_0.val.testBit 2 then 512 else 0))
         0x8000 0xC000,
       effect.file2base
         (16 + (if hdr.rom_control_byte_0.val.testBit 2 then 512 else 0) + 16384)
         0xC000 0x10000] := by
    rw [load_rom_banks_first_second m hdr hnd hm,
      load_prg_rom_bank_eq hdr 1 _ hp (by decide),
      load_prg_rom_bank_eq hdr 2 _ hp (by decide)]
    rfl
  refine ⟨key, ?_⟩
  intro h1 pos ea1 ea2 hget
  rw [key] at hget
  simp only [List.getElem?_cons_succ, List.getElem?_cons_zero, Option.some.injEq,
    effect.file2base.injEq] at hget
  rw [h1, ← hget.1]

theorem load_rom_banks_first_second_copies_witness :
    ines_mappers.case_labels.Nodup ∧
    (ines_hdr.of_bytes
      [0x4E, 0x45, 0x53, 0x1A, 1, 0, 0x70, 0x00, 0, 0, 0, 0, 0, 0, 0, 0]).mapper.val ∈
        ines_mappers.labels_first_second ∧
    placements (load_rom_banks ines_mappers
        (ines_hdr.of_bytes [0x4E, 0x45, 0x53, 0x1A, 1, 0, 0x70, 0x00, 0, 0, 0, 0, 0, 0, 0, 0])) =
      [effect.file2base 16 0x8000 0xC000,
       effect.file2base (16 + 16384) 0xC000 0x10000] :=
  ⟨ines_mappers_nodup, by decide,
   (load_rom_banks_first_second_copies ines_mappers
    (ines_hdr.of_bytes [0x4E, 0x45, 0x53, 0x1A, 1, 0, 0x70, 0x00, 0, 0, 0, 0, 0, 0, 0, 0])
    ines_mappers_nodup (by decide) (by decide)).1⟩

/-- C13, as stated, fails: with one PRG page and mapper `MAPPER_MMC2` the
unit number `1 * 2 - 2` is 0, `load_8k_prg_rom_bank` returns at once, and no
copy goes to 0xA000. -/
theorem load_rom_banks_mmc2_one_page :
    placements (load_rom_banks ines_mappers
        (ines_hdr.of_bytes [0x4E, 0x45, 0x53, 0x1A, 1, 0, 0x90, 0x00, 0, 0, 0, 0, 0, 0, 0, 0])) =
      [effect.file2base 16 0x8000 0xA000, effect.file2base 16 0xC000 0x10000] ∧
    ¬ ∃ pos ea2 : Nat, effect.file2base pos 0xA000 ea2 ∈
      placements (load_rom_banks ines_mappers
        (ines_hdr.of_bytes
          [0x4E, 0x45, 0x53, 0x1A, 1, 0, 0x90, 0x00, 0, 0, 0, 0, 0, 0, 0, 0])) := by
  have key : placements (load_rom_banks ines_mappers
        (ines_hdr.of_bytes [0x4E, 0x45, 0x53, 0x1A, 1, 0, 0x90, 0x00, 0, 0, 0, 0, 0, 0, 0, 0])) =
      [effect.file2base 16 0x8000 0xA000, effect.file2base 16 0xC000 0x10000] := by
    decide
  refine ⟨key, ?_⟩
  rw [key]
  rintro ⟨pos, ea2, h⟩
  simp at h

/-- C13, amended: when the mapper number of the header is `MAPPER_MMC2` (the
case labels being pairwise distinct) and the header has `p` PRG pages with
`2 <= p <= 128`, the copies made are three: 8192 bytes from offset
16 + trainer size to 0x8000, 8192 bytes from offset
16 + trainer size + (2 * p - 3) * 8192 (unit `2 * p - 2`) to 0xA000, and 16384
bytes from offset 16 + trainer size + (p - 1) * 16384 (page `p`) to 0xC000;
with `p = 1` the copies are the first and the last of these only. -/
theorem load_rom_banks_mixed_8k (m : mappers) (hdr : ines_hdr) (hnd : m.case_labels.Nodup)
    (hm : hdr.mapper.val = m.MAPPER_MMC2) :
    (2 ≤ hdr.prg_page_count_16k.val → hdr.prg_page_count_16k.val ≤ 128 →
      placements (load_rom_banks m hdr) =
        [effect.file2base (16 + (if hdr.rom_control_byte_0.val.testBit 2 then 512 else 0))
           0x8000 0xA000,
         effect.file2base
           (16 + (if hdr.rom_control_byte_0.val.testBit 2 then 512 else 0) +
             (2 * hdr.prg_page_count_16k.val - 3) * 8192)
           0xA000 0xC000,
         effect.file2base
           (16 + (if hdr.rom_control_byte_0.val.testBit 2 then 512 else 0) +
             (hdr.prg_page_count_16k.val - 1) * 16384)
           0xC000 0x10000]) ∧
    (hdr.prg_page_count_16k.val = 1 →
      placements (load_rom_banks m hdr) =
        [effect.file2base (16 + (if hdr.rom_control_byte_0.val.testBit 2 then 512 else 0))
           0x8000 0xA000,
         effect.file2base (16 + (if hdr.rom_control_byte_0.val.testBit 2 then 512 else 0))
           0xC000 0x10000]) := by
  constructor
  · intro h2 h128
    have hp : 1 ≤ hdr.prg_page_count_16k.val := by omega
    have e : (to_uchar ((hdr.prg_page_count_16k.val : Int) * 2 - 2)).val =
        2 * hdr.prg_page_count_16k.val - 2 := by
      rw [to_uchar_val _ (by omega) (by omega)]
      omega
    have h1 : 1 ≤ (to_uchar ((hdr.prg_page_count_16k.val : Int) * 2 - 2)).val := by
      rw [e]; omega
    have a : 2 * hdr.prg_page_count_16k.val - 2 - 1 = 2 * hdr.prg_page_count_16k.val - 3 := by
      omega
    rw [load_rom_banks_mmc2 m hdr hnd hm,
      load_8k_prg_rom_bank_eq hdr 1 _ hp (by decide),
      load_8k_prg_rom_bank_eq hdr _ _ hp h1,
      load_prg_rom_bank_eq hdr hdr.prg_page_count_16k _ hp hp, e, a]
    rfl
  · intro h1
    have hp : 1 ≤ hdr.prg_page_count_16k.val := by omega
    have e : to_uchar ((hdr.prg_page_count_16k.val : Int) * 2 - 2) = 0 := by
      rw [h1]; rfl
    rw [load_rom_banks_mmc2 m hdr hnd hm,
      load_8k_prg_rom_bank_eq hdr 1 _ hp (by decide), e, load_8k_prg_rom_bank_zero,
      load_prg_rom_bank_eq hdr hdr.prg_page_count_16k _ hp hp, h1]
    rfl

theorem load_rom_banks_mixed_8k_witness :
    ines_mappers.case_labels.Nodup ∧
    (ines_hdr.of_bytes
      [0x4E, 0x45, 0x53, 0x1A, 8, 0, 0x94, 0x00, 0, 0, 0, 0, 0, 0, 0, 0]).mapper.val =
        ines_mappers.MAPPER_MMC2 ∧
    placements (load_rom_banks ines_mappers
        (ines_hdr.of_bytes [0x4E, 0x45, 0x53, 0x1A, 8, 0, 0x94, 0x00, 0, 0, 0, 0, 0, 0, 0, 0])) =
      [effect.file2base (16 + 512) 0x8000 0xA000,
       effect.file2base (16 + 512 + 13 * 8192) 0xA000 0xC000,
       effect.file2base (16 + 512 + 7 * 16384) 0xC000 0x10000] ∧
    placements (load_rom_banks ines_mappers
        (ines_hdr.of_bytes [0x4E, 0x45, 0x53, 0x1A, 1, 0, 0x94, 0x00, 0, 0, 0, 0, 0, 0, 0, 0])) =
      [effect.file2base (16 + 512) 0x8000 0xA000,
       effect.file2base (16 + 512) 0xC000 0x10000] :=
  ⟨ines_mappers_nodup, by decide,
   (load_rom_banks_mixed_8k ines_mappers
    (ines_hdr.of_bytes [0x4E, 0x45, 0x53, 0x1A, 8, 0, 0x94, 0x00, 0, 0, 0, 0, 0, 0, 0, 0])
    ines_mappers_nodup (by decide)).1 (by decide) (by decide),
   (load_rom_banks_mixed_8k ines_mappers
    (ines_hdr.of_bytes [0x4E, 0x45, 0x53, 0x1A, 1, 0, 0x94, 0x00, 0, 0, 0, 0, 0, 0, 0, 0])
    ines_mappers_nodup (by decide)).2 (by decide)⟩

/-- The fourth case group for page counts whose doubled value fits a byte:
with `1 <= p <= 127` the copies are four, each of 8192 bytes from the last
8 KiB unit. -/
theorem load_rom_banks_last_four (m : mappers) (hdr : ines_hdr) (hnd : m.case_labels.Nodup)
    (hm : hdr.mapper.val = m.MAPPER_TENGEN_RAMBO_1)
    (hp : 1 ≤ hdr.prg_page_count_16k.val) (h127 : hdr.prg_page_count_16k.val ≤ 127) :
    placements (load_rom_banks m hdr) =
      [effect.file2base
         (16 + (if hdr.rom_control_byte_0.val.testBit 2 then 512 else 0) +
           (2 * hdr.prg_page_count_16k.val - 1) * 8192) 0x8000 0xA000,
       effect.file2base
         (16 + (if hdr.rom_control_byte_0.val.testBit 2 then 512 else 0) +
           (2 * hdr.prg_page_count_16k.val - 1) * 8192) 0xA000 0xC000,
       effect.file2base
         (16 + (if hdr.rom_control_byte_0.val.testBit 2 then 512 else 0) +
           (2 * hdr.prg_page_count_16k.val - 1) * 8192) 0xC000 0xE000,
       effect.file2base
         (16 + (if hdr.rom_control_byte_0.val.testBit 2 then 512 else 0) +
           (2 * hdr.prg_page_count_16k.val - 1) * 8192) 0xE000 0x10000] := by
  have e : (to_uchar ((hdr.prg_page_count_16k.val : Int) * 2)).val =
      2 * hdr.prg_page_count_16k.val := by
    rw [to_uchar_val _ (by omega) (by omega)]
    omega
  have h1 : 1 ≤ (to_uchar ((hdr.prg_page_count_16k.val : Int) * 2)).val := by
    rw [e]; omega
  rw [load_rom_banks_rambo m hdr hnd hm,
    load_8k_prg_rom_bank_eq hdr _ PRG_ROM_BANK_8000 hp h1,
    load_8k_prg_rom_bank_eq hdr _ PRG_ROM_BANK_A000 hp h1,
    load_8k_prg_rom_bank_eq hdr _ PRG_ROM_BANK_C000 hp h1,
    load_8k_prg_rom_bank_eq hdr _ PRG_ROM_BANK_E000 hp h1, e]
  rfl

/-- C14 at a failing input: with 128 PRG pages and mapper
`MAPPER_TENGEN_RAMBO_1` the unit number `128 * 2` becomes 0 as a `uchar` and no
copy is made at all; with 129 pages the four copies come from unit 2 (offset
16 + 8192), not from the last unit. -/
theorem load_rom_banks_rambo_overflow :
    placements (load_rom_banks ines_mappers
        (ines_hdr.of_bytes
          [0x4E, 0x45, 0x53, 0x1A, 128, 0, 0x00, 0x40, 0, 0, 0, 0, 0, 0, 0, 0])) = [] ∧
    placements (load_rom_banks ines_mappers
        (ines_hdr.of_bytes
          [0x4E, 0x45, 0x53, 0x1A, 129, 0, 0x00, 0x40, 0, 0, 0, 0, 0, 0, 0, 0])) =
      [effect.file2base (16 + 8192) 0x8000 0xA000,
       effect.file2base (16 + 8192) 0xA000 0xC000,
       effect.file2base (16 + 8192) 0xC000 0xE000,
       effect.file2base (16 + 8192) 0xE000 0x10000] := by
  constructor <;> decide

/-! ## Dependence of the bank loaders on the header -/

theorem load_prg_rom_bank_congr (h1 h2 : ines_hdr)
    (hp : h1.prg_page_count_16k = h2.prg_page_count_16k)
    (ht : h1.rom_control_byte_0.val.testBit 2 = h2.rom_control_byte_0.val.testBit 2)
    (n : uchar) (address : Nat) :
    load_prg_rom_bank h1 n address = load_prg_rom_bank h2 n address := by
  unfold load_prg_rom_bank
  rw [trainer_size_eq h1, trainer_size_eq h2, hp, ht]

theorem load_8k_prg_rom_bank_congr (h1 h2 : ines_hdr)
    (hp : h1.prg_page_count_16k = h2.prg_page_count_16k)
    (ht : h1.rom_control_byte_0.val.testBit 2 = h2.rom_control_byte_0.val.testBit 2)
    (n : uchar) (address : Nat) :
    load_8k_prg_rom_bank h1 n address = load_8k_prg_rom_bank h2 n address := by
  unfold load_8k_prg_rom_bank
  rw [trainer_size_eq h1, trainer_size_eq h2, hp, ht]

theorem load_first_last_congr (h1 h2 : ines_hdr)
    (hp : h1.prg_page_count_16k = h2.prg_page_count_16k)
    (ht : h1.rom_control_byte_0.val.testBit 2 = h2.rom_control_byte_0.val.testBit 2) :
    load_first_last h1 = load_first_last h2 := by
  unfold load_first_last load_chr_rom_bank
  rw [load_prg_rom_bank_congr h1 h2 hp ht, load_prg_rom_bank_congr h1 h2 hp ht, hp]

/-- The whole list of recorded calls of `load_rom_banks` is fixed by the page
count, the trainer flag and the mapper number. -/
theorem load_rom_banks_congr (m : mappers) (h1 h2 : ines_hdr)
    (hp : h1.prg_page_count_16k = h2.prg_page_count_16k)
    (ht : h1.rom_control_byte_0.val.testBit 2 = h2.rom_control_byte_0.val.testBit 2)
    (hm : h1.mapper = h2.mapper) :
    load_rom_banks m h1 = load_rom_banks m h2 := by
  unfold load_rom_banks load_chr_rom_bank
  simp only [hm, hp, load_first_last_congr h1 h2 hp ht,
    load_prg_rom_bank_congr h1 h2 hp ht, load_8k_prg_rom_bank_congr h1 h2 hp ht]

theorem mem_load_prg_rom_bank (hdr : ines_hdr) (n : uchar) (address : Nat) (e : effect)
    (he : e ∈ load_prg_rom_bank hdr n address) :
    ∃ pos, e = effect.file2base pos address (address + 16384) := by
  unfold load_prg_rom_bank at he
  split at he
  · simp at he
  · rw [List.mem_singleton] at he
    exact ⟨_, he⟩

theorem mem_load_8k_prg_rom_bank (hdr : ines_hdr) (n : uchar) (address : Nat) (e : effect)
    (he : e ∈ load_8k_prg_rom_bank hdr n address) :
    ∃ pos, e = effect.file2base pos address (address + 8192) := by
  unfold load_8k_prg_rom_bank at he
  split at he
  · simp at he
  · rw [List.mem_singleton] at he
    exact ⟨_, he⟩

theorem warnings_load_prg_rom_bank (hdr : ines_hdr) (n : uchar) (address : Nat) :
    warnings (load_prg_rom_bank hdr n address) = [] := by
  unfold load_prg_rom_bank
  split <;> rfl

theorem warnings_load_8k_prg_rom_bank (hdr : ines_hdr) (n : uchar) (address : Nat) :
    warnings (load_8k_prg_rom_bank hdr n address) = [] := by
  unfold load_8k_prg_rom_bank
  split <;> rfl

theorem placements_load_prg_rom_bank (hdr : ines_hdr) (n : uchar) (address : Nat) :
    placements (load_prg_rom_bank hdr n address) = load_prg_rom_bank hdr n address := by
  unfold load_prg_rom_bank
  split <;> rfl

theorem placements_load_8k_prg_rom_bank (hdr : ines_hdr) (n : uchar) (address : Nat) :
    placements (load_8k_prg_rom_bank hdr n address) = load_8k_prg_rom_bank hdr n address := by
  unfold load_8k_prg_rom_bank
  split <;> rfl

theorem warnings_append (a b : List effect) : warnings (a ++ b) = warnings a ++ warnings b := by
  simp [warnings]

theorem placements_append (a b : List effect) :
    placements (a ++ b) = placements a ++ placements b := by
  simp [placements]

theorem warnings_load_first_last (hdr : ines_hdr) : warnings (load_first_last hdr) = [] := by
  unfold load_first_last load_chr_rom_bank
  simp only [warnings_append, warnings_load_prg_rom_bank]
  rfl

/-- Every recorded call of `load_rom_banks` is the mapper warning or a copy
into the PRG window 0x8000..0xFFFF. -/
theorem mem_load_rom_banks (m : mappers) (hdr : ines_hdr) (e : effect)
    (he : e ∈ load_rom_banks m hdr) :
    (∃ x, e = effect.warning_mapper x) ∨
    ∃ pos a len, e = effect.file2base pos a (a + len) ∧ 0x8000 ≤ a ∧ a + len ≤ 0x10000 := by
  have h16 : ∀ n a, 0x8000 ≤ a → a + 16384 ≤ 0x10000 → e ∈ load_prg_rom_bank hdr n a →
      ∃ pos a len, e = effect.file2base pos a (a + len) ∧ 0x8000 ≤ a ∧ a + len ≤ 0x10000 := by
    intro n a h1 h2 hmem
    obtain ⟨pos, hpos⟩ := mem_load_prg_rom_bank hdr n a e hmem
    exact ⟨pos, a, 16384, hpos, h1, h2⟩
  have h8 : ∀ n a, 0x8000 ≤ a → a + 8192 ≤ 0x10000 → e ∈ load_8k_prg_rom_bank hdr n a →
      ∃ pos a len, e = effect.file2base pos a (a + len) ∧ 0x8000 ≤ a ∧ a + len ≤ 0x10000 := by
    intro n a h1 h2 hmem
    obtain ⟨pos, hpos⟩ := mem_load_8k_prg_rom_bank hdr n a e hmem
    exact ⟨pos, a, 8192, hpos, h1, h2⟩
  have hfl : e ∈ load_first_last hdr →
      ∃ pos a len, e = effect.file2base pos a (a + len) ∧ 0x8000 ≤ a ∧ a + len ≤ 0x10000 := by
    intro hmem
    unfold load_first_last load_chr_rom_bank at hmem
    simp only [List.mem_append, List.not_mem_nil, or_false] at hmem
    rcases hmem with hmem | hmem
    · exact h16 _ _ (by decide) (by decide) hmem
    · exact h16 _ _ (by decide) (by decide) hmem
  unfold load_rom_banks load_chr_rom_bank at he
  simp only [] at he
  split at he
  · exact Or.inr (hfl he)
  · split at he
    · simp only [List.mem_append, List.not_mem_nil, or_false] at he
      rcases he with he | he
      · exact Or.inr (h16 _ _ (by decide) (by decide) he)
      · exact Or.inr (h16 _ _ (by decide) (by decide) he)
    · split at he
      · simp only [List.mem_append, List.not_mem_nil, or_false] at he
        rcases he with he | he
        · exact Or.inr (h16 _ _ (by decide) (by decide) he)
        · exact Or.inr (h16 _ _ (by decide) (by decide) he)
      · split at he
        · simp only [List.mem_append, List.not_mem_nil, or_false] at he
          rcases he with (he | he) | he
          · exact Or.inr (h8 _ _ (by decide) (by decide) he)
          · exact Or.inr (h8 _ _ (by decide) (by decide) he)
          · exact Or.inr (h16 _ _ (by decide) (by decide) he)
        · split at he
          · simp only [List.mem_append, List.not_mem_nil, or_false] at he
            rcases he with ((he | he) | he) | he
            · exact Or.inr (h8 _ _ (by decide) (by decide) he)
            · exact Or.inr (h8 _ _ (by decide) (by decide) he)
            · exact Or.inr (h8 _ _ (by decide) (by decide) he)
            · exact Or.inr (h8 _ _ (by decide) (by decide) he)
          · rw [List.mem_cons] at he
            rcases he with he | he
            · exact Or.inl ⟨_, he⟩
            · exact Or.inr (hfl he)

theorem warnings_load_rom_banks_of_label (m : mappers) (hdr : ines_hdr)
    (hl : hdr.mapper.val ∈ m.case_labels) : warnings (load_rom_banks m hdr) = [] := by
  unfold load_rom_banks load_chr_rom_bank
  simp only []
  split
  · exact warnings_load_first_last hdr
  · split
    · simp only [warnings_append, warnings_load_prg_rom_bank]; rfl
    · split
      · simp only [warnings_append, warnings_load_prg_rom_bank]; rfl
      · split
        · simp only [warnings_append, warnings_load_prg_rom_bank,
            warnings_load_8k_prg_rom_bank]; rfl
        · split
          · simp only [warnings_append, warnings_load_8k_prg_rom_bank]; rfl
          · rename_i h1 h2 h3 h4 h5
            exfalso
            unfold mappers.case_labels at hl
            simp only [List.mem_append, List.mem_cons, List.mem_singleton, List.not_mem_nil,
              or_false] at hl
            tauto

theorem load_rom_banks_of_no_label (m : mappers) (hdr : ines_hdr)
    (hno : hdr.mapper.val ∉ m.case_labels) :
    load_rom_banks m hdr = effect.warning_mapper hdr.mapper.val :: load_first_last hdr := by
  have h1 : hdr.mapper.val ∉ m.labels_first_last := fun h =>
    hno (by simp [mappers.case_labels, h])
  have h2 : ¬ hdr.mapper.val = m.MAPPER_HK_SF3 := fun h =>
    hno (by simp [mappers.case_labels, h])
  have h3 : hdr.mapper.val ∉ m.labels_first_second := fun h =>
    hno (by simp [mappers.case_labels, h])
  have h4 : ¬ hdr.mapper.val = m.MAPPER_MMC2 := fun h =>
    hno (by simp [mappers.case_labels, h])
  have h5 : ¬ hdr.mapper.val = m.MAPPER_TENGEN_RAMBO_1 := fun h =>
    hno (by simp [mappers.case_labels, h])
  unfold load_rom_banks
  simp only [if_neg h1, if_neg h2, if_neg h3, if_neg h4, if_neg h5]

theorem load_rom_banks_of_mapper_none (m : mappers) (hdr : ines_hdr)
    (hm : hdr.mapper.val = m.MAPPER_NONE) : load_rom_banks m hdr = load_first_last hdr := by
  have h1 : hdr.mapper.val ∈ m.labels_first_last := by
    rw [hm]; simp [mappers.labels_first_last]
  unfold load_rom_banks
  simp only [if_pos h1]

theorem placements_load_first_last_eq (hdr : ines_hdr) :
    placements (load_first_last hdr) = load_first_last hdr := by
  unfold load_first_last load_chr_rom_bank
  simp only [placements_append, placements_load_prg_rom_bank]
  rfl

/-- C15: when the mapper number of the header is none of the case labels of
`load_rom_banks`, the copies are those made for a header with mapper
`MAPPER_NONE`, the same page count and the same trainer flag, and exactly one
warning is raised, carrying that mapper number; for a mapper number that is a
case label no warning is raised. -/
theorem load_rom_banks_unsupported_mapper (m : mappers) (hdr : ines_hdr)
    (hno : hdr.mapper.val ∉ m.case_labels) :
    (∀ hdr0 : ines_hdr, hdr0.mapper.val = m.MAPPER_NONE →
      hdr0.prg_page_count_16k = hdr.prg_page_count_16k →
      hdr0.rom_control_byte_0.val.testBit 2 = hdr.rom_control_byte_0.val.testBit 2 →
      placements (load_rom_banks m hdr) = placements (load_rom_banks m hdr0)) ∧
    warnings (load_rom_banks m hdr) = [effect.warning_mapper hdr.mapper.val] ∧
    (∀ hdr1 : ines_hdr, hdr1.mapper.val ∈ m.case_labels →
      warnings (load_rom_banks m hdr1) = []) := by
  refine ⟨?_, ?_, fun hdr1 h1 => warnings_load_rom_banks_of_label m hdr1 h1⟩
  · intro hdr0 hm0 hp ht
    rw [load_rom_banks_of_no_label m hdr hno, load_rom_banks_of_mapper_none m hdr0 hm0,
      load_first_last_congr hdr0 hdr hp ht]
    rfl
  · rw [load_rom_banks_of_no_label m hdr hno]
    have h : warnings (effect.warning_mapper hdr.mapper.val :: load_first_last hdr) =
        effect.warning_mapper hdr.mapper.val :: warnings (load_first_last hdr) := rfl
    rw [h, warnings_load_first_last]

theorem load_rom_banks_unsupported_mapper_witness :
    (ines_hdr.of_bytes
      [0x4E, 0x45, 0x53, 0x1A, 2, 1, 0xF4, 0xF0, 0, 0, 0, 0, 0, 0, 0, 0]).mapper.val = 255 ∧
    255 ∉ ines_mappers.case_labels ∧
    (ines_hdr.of_bytes
      [0x4E, 0x45, 0x53, 0x1A, 2, 0, 0x04, 0x00, 0, 0, 0, 0, 0, 0, 0, 0]).mapper.val =
        ines_mappers.MAPPER_NONE ∧
    placements (load_rom_banks ines_mappers
        (ines_hdr.of_bytes [0x4E, 0x45, 0x53, 0x1A, 2, 1, 0xF4, 0xF0, 0, 0, 0, 0, 0, 0, 0, 0])) =
      placements (load_rom_banks ines_mappers
        (ines_hdr.of_bytes [0x4E, 0x45, 0x53, 0x1A, 2, 0, 0x04, 0x00, 0, 0, 0, 0, 0, 0, 0, 0])) ∧
    warnings (load_rom_banks ines_mappers
        (ines_hdr.of_bytes [0x4E, 0x45, 0x53, 0x1A, 2, 1, 0xF4, 0xF0, 0, 0, 0, 0, 0, 0, 0, 0])) =
      [effect.warning_mapper 255] :=
  ⟨by decide, by decide, by decide,
   (load_rom_banks_unsupported_mapper ines_mappers
      (ines_hdr.of_bytes [0x4E, 0x45, 0x53, 0x1A, 2, 1, 0xF4, 0xF0, 0, 0, 0, 0, 0, 0, 0, 0])
      (by decide)).1
      (ines_hdr.of_bytes [0x4E, 0x45, 0x53, 0x1A, 2, 0, 0x04, 0x00, 0, 0, 0, 0, 0, 0, 0, 0])
      (by decide) (by decide) (by decide),
   (load_rom_banks_unsupported_mapper ines_mappers
      (ines_hdr.of_bytes [0x4E, 0x45, 0x53, 0x1A, 2, 1, 0xF4, 0xF0, 0, 0, 0, 0, 0, 0, 0, 0])
      (by decide)).2.1⟩

/-- C17: with a PRG page count of 0 `load_rom_banks` makes no copy, whatever
the mapper number; and `load_prg_rom_bank` and `load_8k_prg_rom_bank` called
with bank number 0 record nothing, whatever the header. -/
theorem load_rom_banks_no_pages (m : mappers) (hdr : ines_hdr)
    (hp0 : hdr.prg_page_count_16k = 0) :
    placements (load_rom_banks m hdr) = [] ∧
    (∀ (hdr1 : ines_hdr) (address : Nat),
      load_prg_rom_bank hdr1 0 address = [] ∧ load_8k_prg_rom_bank hdr1 0 address = []) := by
  refine ⟨?_, fun hdr1 address =>
    ⟨load_prg_rom_bank_zero hdr1 address, load_8k_prg_rom_bank_zero hdr1 address⟩⟩
  unfold load_rom_banks load_first_last load_chr_rom_bank
  simp only [load_prg_rom_bank_no_pages hdr _ _ hp0, load_8k_prg_rom_bank_no_pages hdr _ _ hp0,
    List.append_nil]
  split
  · rfl
  · split
    · rfl
    · split
      · rfl
      · split
        · rfl
        · split <;> rfl

theorem load_rom_banks_no_pages_witness :
    (ines_hdr.of_bytes
      [0x4E, 0x45, 0x53, 0x1A, 0, 1, 0x90, 0x00, 0, 0, 0, 0, 0, 0, 0, 0]).prg_page_count_16k
        = 0 ∧
    placements (load_rom_banks ines_mappers
        (ines_hdr.of_bytes [0x4E, 0x45, 0x53, 0x1A, 0, 1, 0x90, 0x00, 0, 0, 0, 0, 0, 0, 0, 0])) =
      [] :=
  ⟨by decide,
   (load_rom_banks_no_pages ines_mappers
      (ines_hdr.of_bytes [0x4E, 0x45, 0x53, 0x1A, 0, 1, 0x90, 0x00, 0, 0, 0, 0, 0, 0, 0, 0])
      (by decide)).1⟩

/-- C20: two headers with the same PRG page count, the same trainer flag and
the same value of `INES_MASK_MAPPER_VERSION` make `load_rom_banks` record the
same copies and the same warnings (indeed the same calls), whatever their
other bits and bytes are. -/
theorem load_rom_banks_depends_on (m : mappers) (h1 h2 : ines_hdr)
    (hp : h1.prg_page_count_16k = h2.prg_page_count_16k)
    (ht : h1.rom_control_byte_0.val.testBit 2 = h2.rom_control_byte_0.val.testBit 2)
    (hm : INES_MASK_MAPPER_VERSION h1.rom_control_byte_0.val h1.rom_control_byte_1.val =
      INES_MASK_MAPPER_VERSION h2.rom_control_byte_0.val h2.rom_control_byte_1.val) :
    placements (load_rom_banks m h1) = placements (load_rom_banks m h2) ∧
    warnings (load_rom_banks m h1) = warnings (load_rom_banks m h2) ∧
    load_rom_banks m h1 = load_rom_banks m h2 := by
  have hmap : h1.mapper = h2.mapper := by
    unfold ines_hdr.mapper
    rw [hm]
  have key := load_rom_banks_congr m h1 h2 hp ht hmap
  exact ⟨by rw [key], by rw [key], key⟩

theorem load_rom_banks_depends_on_witness :
    placements (load_rom_banks ines_mappers
        (ines_hdr.of_bytes [0x4E, 0x45, 0x53, 0x1A, 4, 0, 0x94, 0x00, 0, 0, 0, 0, 0, 0, 0, 0])) =
      placements (load_rom_banks ines_mappers
        (ines_hdr.of_bytes
          [0x4E, 0x45, 0x53, 0x1A, 4, 7, 0x9F, 0x0E, 5, 1, 2, 3, 4, 5, 6, 7])) ∧
    warnings (load_rom_banks ines_mappers
        (ines_hdr.of_bytes [0x4E, 0x45, 0x53, 0x1A, 4, 0, 0x94, 0x00, 0, 0, 0, 0, 0, 0, 0, 0])) =
      warnings (load_rom_banks ines_mappers
        (ines_hdr.of_bytes
          [0x4E, 0x45, 0x53, 0x1A, 4, 7, 0x9F, 0x0E, 5, 1, 2, 3, 4, 5, 6, 7])) :=
  ⟨(load_rom_banks_depends_on ines_mappers
      (ines_hdr.of_bytes [0x4E, 0x45, 0x53, 0x1A, 4, 0, 0x94, 0x00, 0, 0, 0, 0, 0, 0, 0, 0])
      (ines_hdr.of_bytes [0x4E, 0x45, 0x53, 0x1A, 4, 7, 0x9F, 0x0E, 5, 1, 2, 3, 4, 5, 6, 7])
      (by decide) (by decide) (by decide)).1,
   (load_rom_banks_depends_on ines_mappers
      (ines_hdr.of_bytes [0x4E, 0x45, 0x53, 0x1A, 4, 0, 0x94, 0x00, 0, 0, 0, 0, 0, 0, 0, 0])
      (ines_hdr.of_bytes [0x4E, 0x45, 0x53, 0x1A, 4, 7, 0x9F, 0x0E, 5, 1, 2, 3, 4, 5, 6, 7])
      (by decide) (by decide) (by decide)).2.1⟩

/-! ## The trainer copy in the whole load -/

theorem load_ines_file_hdr_control_byte_0 (hdr : ines_hdr) (code : Int) :
    (load_ines_file_hdr hdr code).rom_control_byte_0 = hdr.rom_control_byte_0 := by
  unfold load_ines_file_hdr
  split
  · split
    · rw [fix_ines_hdr_eq]
      split <;> rfl
    · rfl
  · rfl

theorem trainer_copy_not_mem_load_rom_banks (m : mappers) (hdr : ines_hdr) :
    effect.file2base 16 0x7000 0x7200 ∉ load_rom_banks m hdr := by
  intro hmem
  rcases mem_load_rom_banks m hdr _ hmem with ⟨x, hx⟩ | ⟨pos, a, len, he, ha, -⟩
  · exact effect.noConfusion hx
  · simp only [effect.file2base.injEq] at he
    omega

theorem count_trainer_copy_create_segments (hdr : ines_hdr) :
    (create_segments hdr).count (effect.file2base 16 0x7000 0x7200) =
      if hdr.rom_control_byte_0.val.testBit 2 then 1 else 0 := by
  unfold create_segments load_trainer create_ram_segment create_ioreg_segment
    create_sram_segment create_exprom_segment create_rom_segment
  by_cases hb : hdr.rom_control_byte_0.val.testBit 2 = true
  · rw [if_pos ((mask_trainer_iff _ hdr.rom_control_byte_0.isLt).mpr hb), if_pos hb]
    by_cases hs : INES_MASK_SRAM hdr.rom_control_byte_0.val ≠ 0
    · rw [if_neg (not_not.mpr hs)]
      simp [List.count_cons, INES_HDR_SIZE, TRAINER_START_ADDRESS, TRAINER_SIZE]
    · rw [if_pos hs]
      simp [List.count_cons, INES_HDR_SIZE, TRAINER_START_ADDRESS, TRAINER_SIZE]
  · rw [if_neg (fun h => hb ((mask_trainer_iff _ hdr.rom_control_byte_0.isLt).mp h)),
      if_neg hb]
    simp [List.count_cons]

theorem count_trainer_copy_load_ines_file (m : mappers) (hdr : ines_hdr) (code : Int) :
    (load_ines_file m hdr code).count (effect.file2base 16 0x7000 0x7200) =
      if hdr.rom_control_byte_0.val.testBit 2 then 1 else 0 := by
  unfold load_ines_file
  simp only [List.count_append]
  rw [count_trainer_copy_create_segments, load_ines_file_hdr_control_byte_0,
    List.count_eq_zero.mpr (trainer_copy_not_mem_load_rom_banks m _)]
  rfl

/-- C16: in the whole load the copy of the trainer (512 bytes from file offset
16 to 0x7000) is made exactly once when bit 2 of `rom_control_byte_0` is set
and not at all otherwise, whatever the mapper numbers, the other header bits
(the save RAM bit among them) and the answer to the repair dialog are. -/
theorem load_ines_file_trainer_copy (m : mappers) (hdr : ines_hdr) (code : Int) :
    (load_ines_file m hdr code).count (effect.file2base 16 0x7000 0x7200) =
      (if hdr.rom_control_byte_0.val.testBit 2 then 1 else 0) ∧
    (effect.file2base 16 0x7000 0x7200 ∈ load_ines_file m hdr code ↔
      hdr.rom_control_byte_0.val.testBit 2 = true) ∧
    (∀ (m2 : mappers) (hdr2 : ines_hdr) (code2 : Int),
      hdr2.rom_control_byte_0.val.testBit 2 = hdr.rom_control_byte_0.val.testBit 2 →
      (load_ines_file m2 hdr2 code2).count (effect.file2base 16 0x7000 0x7200) =
        (load_ines_file m hdr code).count (effect.file2base 16 0x7000 0x7200)) := by
  have hc := count_trainer_copy_load_ines_file m hdr code
  refine ⟨hc, ?_, ?_⟩
  · rw [← List.count_pos_iff, hc]
    by_cases hb : hdr.rom_control_byte_0.val.testBit 2 = true
    · simp [hb]
    · simp [hb]
  · intro m2 hdr2 code2 hb
    rw [hc, count_trainer_copy_load_ines_file m2 hdr2 code2, hb]

theorem load_ines_file_trainer_copy_witness :
    (ines_hdr.of_bytes
      [0x4E, 0x45, 0x53, 0x1A, 2, 1, 0x96, 0x00, 0, 0, 0, 0, 0, 0, 0, 1]
      ).rom_control_byte_0.val.testBit 2 = true ∧
    (load_ines_file ines_mappers
        (ines_hdr.of_bytes [0x4E, 0x45, 0x53, 0x1A, 2, 1, 0x96, 0x00, 0, 0, 0, 0, 0, 0, 0, 1])
        1).count (effect.file2base 16 0x7000 0x7200) = 1 ∧
    effect.file2base 16 0x7000 0x7200 ∈ load_ines_file ines_mappers
        (ines_hdr.of_bytes [0x4E, 0x45, 0x53, 0x1A, 2, 1, 0x96, 0x00, 0, 0, 0, 0, 0, 0, 0, 1])
        1 :=
  ⟨by decide,
   (load_ines_file_trainer_copy ines_mappers
      (ines_hdr.of_bytes [0x4E, 0x45, 0x53, 0x1A, 2, 1, 0x96, 0x00, 0, 0, 0, 0, 0, 0, 0, 1])
      1).1,
   (load_ines_file_trainer_copy ines_mappers
      (ines_hdr.of_bytes [0x4E, 0x45, 0x53, 0x1A, 2, 1, 0x96, 0x00, 0, 0, 0, 0, 0, 0, 0, 1])
      1).2.1.mpr (by decide)⟩

/-! ## Vectors and entry points -/

/-- C18: `add_entry_points` adds exactly three entry points, in the order
NMI, RESET, IRQ, at the little-endian words of the destination memory at
0xFFFA, 0xFFFC and 0xFFFE, and returns true; `set_ida_export_data` sets the
program entry point to the RESET word; with the bytes 0x00, 0x90 at 0xFFFC the
RESET entry point is 0x9000. -/
theorem add_entry_points_vectors (mem : Nat → uchar) :
    add_entry_points mem =
      ([⟨(mem 0xFFFA).val + 256 * (mem 0xFFFB).val,
          (mem 0xFFFA).val + 256 * (mem 0xFFFB).val, "NMI_routine"⟩,
        ⟨(mem 0xFFFC).val + 256 * (mem 0xFFFD).val,
          (mem 0xFFFC).val + 256 * (mem 0xFFFD).val, "RESET_routine"⟩,
        ⟨(mem 0xFFFE).val + 256 * (mem 0xFFFF).val,
          (mem 0xFFFE).val + 256 * (mem 0xFFFF).val, "IRQ_routine"⟩], true) ∧
    (set_ida_export_data mem).startIP = (mem 0xFFFC).val + 256 * (mem 0xFFFD).val ∧
    (set_ida_export_data mem).beginEA = (mem 0xFFFC).val + 256 * (mem 0xFFFD).val ∧
    (mem 0xFFFC = 0x00 → mem 0xFFFD = 0x90 →
      ((add_entry_points mem).1.map entry_point.ea)[1]? = some 0x9000 ∧
      (set_ida_export_data mem).startIP = 0x9000) := by
  refine ⟨rfl, rfl, rfl, ?_⟩
  intro h0 h1
  have hw : get_vector mem RESET_VECTOR_START_ADDRESS = 0x9000 := by
    show (mem 0xFFFC).val + 256 * (mem 0xFFFD).val = 0x9000
    rw [h0, h1]
    rfl
  constructor
  · show some (get_vector mem RESET_VECTOR_START_ADDRESS) = some 0x9000
    rw [hw]
  · show get_vector mem RESET_VECTOR_START_ADDRESS = 0x9000
    exact hw

theorem add_entry_points_vectors_witness :
    ((add_entry_points (fun a => if a = 0xFFFD then 0x90 else 0)).1.map entry_point.ea)[1]? =
      some 0x9000 ∧
    (set_ida_export_data (fun a => if a = 0xFFFD then 0x90 else 0)).startIP = 0x9000 :=
  (add_entry_points_vectors (fun a => if a = 0xFFFD then 0x90 else 0)).2.2.2
    (by decide) (by decide)

/-! ## Description of the image -/

theorem mask_h_mirroring_iff :
    ∀ a < 256, (INES_MASK_H_MIRRORING a ≠ 0 ↔ a.testBit 0 = false) := by
  unfold INES_MASK_H_MIRRORING INES_MASK_V_MIRRORING
  decide

theorem mask_sram_iff : ∀ a < 256, (INES_MASK_SRAM a ≠ 0 ↔ a.testBit 1 = true) := by
  unfold INES_MASK_SRAM
  decide

theorem mask_vram_layout_iff :
    ∀ a < 256, (INES_MASK_VRAM_LAYOUT a ≠ 0 ↔ a.testBit 3 = true) := by
  unfold INES_MASK_VRAM_LAYOUT
  decide

theorem YES_NO_eq_yes (b : Bool) : YES_NO b = "yes" ↔ b = true := by
  cases b <;> simp [YES_NO]

theorem YES_NO_eq_no (b : Bool) : YES_NO b = "no" ↔ b = false := by
  cases b <;> simp [YES_NO]

/-- C19: `describe_rom_image` reports the mirroring as horizontal exactly when
bit 0 of `rom_control_byte_0` is 0 and as vertical otherwise, save RAM,
trainer and four-screen layout as yes exactly when bits 1, 2 and 3 are set
(and as no otherwise), a valid header as yes exactly when
`is_corrupt_ines_hdr` is false, the two page counts as they are in the header
and the mapper as the value of `INES_MASK_MAPPER_VERSION`; the header is left
as it was. -/
theorem describe_rom_image_reports (t : mapper_names_table) (hdr : ines_hdr) :
    ((describe_rom_image t hdr).1.mirroring = "horizontal" ↔
      hdr.rom_control_byte_0.val.testBit 0 = false) ∧
    ((describe_rom_image t hdr).1.mirroring = "vertical" ↔
      hdr.rom_control_byte_0.val.testBit 0 = true) ∧
    ((describe_rom_image t hdr).1.sram_enabled = "yes" ↔
      hdr.rom_control_byte_0.val.testBit 1 = true) ∧
    ((describe_rom_image t hdr).1.sram_enabled = "no" ↔
      hdr.rom_control_byte_0.val.testBit 1 = false) ∧
    ((describe_rom_image t hdr).1.trainer = "yes" ↔
      hdr.rom_control_byte_0.val.testBit 2 = true) ∧
    ((describe_rom_image t hdr).1.trainer = "no" ↔
      hdr.rom_control_byte_0.val.testBit 2 = false) ∧
    ((describe_rom_image t hdr).1.four_screen_vram_layout = "yes" ↔
      hdr.rom_control_byte_0.val.testBit 3 = true) ∧
    ((describe_rom_image t hdr).1.four_screen_vram_layout = "no" ↔
      hdr.rom_control_byte_0.val.testBit 3 = false) ∧
    ((describe_rom_image t hdr).1.valid_image_header = "yes" ↔
      is_corrupt_ines_hdr hdr = false) ∧
    ((describe_rom_image t hdr).1.valid_image_header = "no" ↔
      is_corrupt_ines_hdr hdr = true) ∧
    (describe_rom_image t hdr).1.prg_rom_page_count = hdr.prg_page_count_16k.val ∧
    (describe_rom_image t hdr).1.chr_rom_page_count = hdr.chr_page_count_8k.val ∧
    (describe_rom_image t hdr).1.mapper =
      INES_MASK_MAPPER_VERSION hdr.rom_control_byte_0.val hdr.rom_control_byte_1.val ∧
    (describe_rom_image t hdr).2 = hdr := by
  have hlt := hdr.rom_control_byte_0.isLt
  have hH := mask_h_mirroring_iff _ hlt
  have hS := mask_sram_iff _ hlt
  have hT := mask_trainer_iff _ hlt
  have hV := mask_vram_layout_iff _ hlt
  refine ⟨?_, ?_, ?_, ?_, ?_, ?_, ?_, ?_, ?_, ?_, rfl, rfl, mapper_val hdr, rfl⟩
  · show (if INES_MASK_H_MIRRORING hdr.rom_control_byte_0.val ≠ 0 then "horizontal"
      else "vertical") = "horizontal" ↔ _
    rw [← hH]
    split <;> simp_all
  · show (if INES_MASK_H_MIRRORING hdr.rom_control_byte_0.val ≠ 0 then "horizontal"
      else "vertical") = "vertical" ↔ _
    rw [← Bool.not_eq_false, ← hH]
    split <;> simp_all
  · show YES_NO (decide (INES_MASK_SRAM hdr.rom_control_byte_0.val ≠ 0)) = "yes" ↔ _
    rw [YES_NO_eq_yes, decide_eq_true_iff, hS]
  · show YES_NO (decide (INES_MASK_SRAM hdr.rom_control_byte_0.val ≠ 0)) = "no" ↔ _
    rw [YES_NO_eq_no, decide_eq_false_iff_not, hS, Bool.not_eq_true]
  · show YES_NO (decide (INES_MASK_TRAINER hdr.rom_control_byte_0.val ≠ 0)) = "yes" ↔ _
    rw [YES_NO_eq_yes, decide_eq_true_iff, hT]
  · show YES_NO (decide (INES_MASK_TRAINER hdr.rom_control_byte_0.val ≠ 0)) = "no" ↔ _
    rw [YES_NO_eq_no, decide_eq_false_iff_not, hT, Bool.not_eq_true]
  · show YES_NO (decide (INES_MASK_VRAM_LAYOUT hdr.rom_control_byte_0.val ≠ 0)) = "yes" ↔ _
    rw [YES_NO_eq_yes, decide_eq_true_iff, hV]
  · show YES_NO (decide (INES_MASK_VRAM_LAYOUT hdr.rom_control_byte_0.val ≠ 0)) = "no" ↔ _
    rw [YES_NO_eq_no, decide_eq_false_iff_not, hV, Bool.not_eq_true]
  · show YES_NO (!is_corrupt_ines_hdr hdr) = "yes" ↔ _
    rw [YES_NO_eq_yes]
    cases is_corrupt_ines_hdr hdr <;> simp
  · show YES_NO (!is_corrupt_ines_hdr hdr) = "no" ↔ _
    rw [YES_NO_eq_no]
    cases is_corrupt_ines_hdr hdr <;> simp

/-! ## The CHR loader -/

/-- C21: `load_chr_rom_bank` records nothing for every header, bank number and
address, also where the statements after its `return` would make a copy (at
least one CHR page, bank number at least 1); so no call recorded by
`load_rom_banks` is a copy to the CHR window address, whatever the mapper
number: every copy lies in the PRG window 0x8000..0xFFFF. -/
theorem load_chr_rom_bank_disabled (m : mappers) (hdr : ines_hdr) (banknr : uchar)
    (address : Nat) :
    load_chr_rom_bank hdr banknr address = [] ∧
    (1 ≤ banknr.val → 1 ≤ hdr.chr_page_count_8k.val →
      load_chr_rom_bank_unreached hdr banknr address ≠ [] ∧
      load_chr_rom_bank hdr banknr address = []) ∧
    (∀ pos ea1 ea2 : Nat, effect.file2base pos ea1 ea2 ∈ load_rom_banks m hdr →
      ea1 ≠ CHR_ROM_BANK_ADDRESS ∧ 0x8000 ≤ ea1 ∧ ea2 ≤ 0x10000) := by
  refine ⟨rfl, ?_, ?_⟩
  · intro hb hc
    have hb0 : ¬ banknr = 0 := by
      intro h; rw [h] at hb; simp at hb
    have hc0 : ¬ hdr.chr_page_count_8k = 0 := by
      intro h; rw [h] at hc; simp at hc
    refine ⟨?_, rfl⟩
    unfold load_chr_rom_bank_unreached
    rw [if_neg (by tauto)]
    exact List.cons_ne_nil _ _
  · intro pos ea1 ea2 hmem
    rcases mem_load_rom_banks m hdr _ hmem with ⟨x, hx⟩ | ⟨pos2, a, len, he, ha, hl⟩
    · exact effect.noConfusion hx
    · simp only [effect.file2base.injEq] at he
      obtain ⟨-, h1, h2⟩ := he
      unfold CHR_ROM_BANK_ADDRESS
      omega

theorem load_chr_rom_bank_disabled_witness :
    load_chr_rom_bank_unreached
        (ines_hdr.of_bytes [0x4E, 0x45, 0x53, 0x1A, 2, 1, 0x00, 0x00, 0, 0, 0, 0, 0, 0, 0, 0])
        1 CHR_ROM_BANK_ADDRESS ≠ [] ∧
    load_chr_rom_bank
        (ines_hdr.of_bytes [0x4E, 0x45, 0x53, 0x1A, 2, 1, 0x00, 0x00, 0, 0, 0, 0, 0, 0, 0, 0])
        1 CHR_ROM_BANK_ADDRESS = [] :=
  (load_chr_rom_bank_disabled ines_mappers
    (ines_hdr.of_bytes [0x4E, 0x45, 0x53, 0x1A, 2, 1, 0x00, 0x00, 0, 0, 0, 0, 0, 0, 0, 0])
    1 CHR_ROM_BANK_ADDRESS).2.1 (by decide) (by decide)

/-! ## The unit number as a byte -/

theorem to_uchar_val_emod (x : Int) : ((to_uchar x).val : Int) = x % 256 := by
  have h0 : 0 ≤ x % 256 := Int.emod_nonneg x (by decide)
  have h1 : x % 256 < 256 := Int.emod_lt_of_pos x (by decide)
  have hlt : (x % 256).toNat < 256 := by omega
  simp only [to_uchar, Fin.ofNat]
  rw [Nat.mod_eq_of_lt hlt]
  omega

theorem placements_load_rom_banks_mmc2 (m : mappers) (hdr : ines_hdr)
    (hnd : m.case_labels.Nodup) (hm : hdr.mapper.val = m.MAPPER_MMC2)
    (h2 : 2 ≤ hdr.prg_page_count_16k.val) (h128 : hdr.prg_page_count_16k.val ≤ 128) :
    placements (load_rom_banks m hdr) =
      [effect.file2base (16 + (if hdr.rom_control_byte_0.val.testBit 2 then 512 else 0))
         0x8000 0xA000,
       effect.file2base
         (16 + (if hdr.rom_control_byte_0.val.testBit 2 then 512 else 0) +
           (2 * hdr.prg_page_count_16k.val - 3) * 8192)
         0xA000 0xC000,
       effect.file2base
         (16 + (if hdr.rom_control_byte_0.val.testBit 2 then 512 else 0) +
           (hdr.prg_page_count_16k.val - 1) * 16384)
         0xC000 0x10000] := by
  have hp : 1 ≤ hdr.prg_page_count_16k.val := by omega
  have e : (to_uchar ((hdr.prg_page_count_16k.val : Int) * 2 - 2)).val =
      2 * hdr.prg_page_count_16k.val - 2 := by
    rw [to_uchar_val _ (by omega) (by omega)]
    omega
  have h1 : 1 ≤ (to_uchar ((hdr.prg_page_count_16k.val : Int) * 2 - 2)).val := by
    rw [e]; omega
  have a : 2 * hdr.prg_page_count_16k.val - 2 - 1 = 2 * hdr.prg_page_count_16k.val - 3 := by
    omega
  rw [load_rom_banks_mmc2 m hdr hnd hm,
    load_8k_prg_rom_bank_eq hdr 1 _ hp (by decide),
    load_8k_prg_rom_bank_eq hdr _ _ hp h1,
    load_prg_rom_bank_eq hdr hdr.prg_page_count_16k _ hp hp, e, a]
  rfl

theorem placements_load_rom_banks_mmc2_one (m : mappers) (hdr : ines_hdr)
    (hnd : m.case_labels.Nodup) (hm : hdr.mapper.val = m.MAPPER_MMC2)
    (h1 : hdr.prg_page_count_16k.val = 1) :
    placements (load_rom_banks m hdr) =
      [effect.file2base (16 + (if hdr.rom_control_byte_0.val.testBit 2 then 512 else 0))
         0x8000 0xA000,
       effect.file2base (16 + (if hdr.rom_control_byte_0.val.testBit 2 then 512 else 0))
         0xC000 0x10000] := by
  have hp : 1 ≤ hdr.prg_page_count_16k.val := by omega
  have e : to_uchar ((hdr.prg_page_count_16k.val : Int) * 2 - 2) = 0 := by
    rw [h1]; rfl
  rw [load_rom_banks_mmc2 m hdr hnd hm,
    load_8k_prg_rom_bank_eq hdr 1 _ hp (by decide), e, load_8k_prg_rom_bank_zero,
    load_prg_rom_bank_eq hdr hdr.prg_page_count_16k _ hp hp, h1]
  rfl

/-- C22, as stated, fails: with a page count of 0 the value `0 * 2 - 2` is
-2, which the `uchar` parameter turns into 254, although 0 is at most 128. -/
theorem mixed_8k_unit_number_no_pages :
    (ines_hdr.of_bytes
      [0x4E, 0x45, 0x53, 0x1A, 0, 0, 0x90, 0x00, 0, 0, 0, 0, 0, 0, 0, 0]
      ).prg_page_count_16k.val ≤ 128 ∧
    ((to_uchar (((ines_hdr.of_bytes
      [0x4E, 0x45, 0x53, 0x1A, 0, 0, 0x90, 0x00, 0, 0, 0, 0, 0, 0, 0, 0]
      ).prg_page_count_16k.val : Int) * 2 - 2)).val : Int) = 254 ∧
    ((to_uchar (((ines_hdr.of_bytes
      [0x4E, 0x45, 0x53, 0x1A, 0, 0, 0x90, 0x00, 0, 0, 0, 0, 0, 0, 0, 0]
      ).prg_page_count_16k.val : Int) * 2 - 2)).val : Int) ≠
      ((ines_hdr.of_bytes
      [0x4E, 0x45, 0x53, 0x1A, 0, 0, 0x90, 0x00, 0, 0, 0, 0, 0, 0, 0, 0]
      ).prg_page_count_16k.val : Int) * 2 - 2 := by
  decide

/-- C22, amended: in the case of `MAPPER_TENGEN_RAMBO_1` the four calls of
`load_8k_prg_rom_bank` get the unit number `(2 * p) mod 256`, and in the case
of `MAPPER_MMC2` the second call gets `(2 * p - 2) mod 256`, where `p` is the
PRG page count; the first equals `2 * p` exactly when `p <= 127`, the second
equals `2 * p - 2` exactly when `1 <= p <= 128`; with `MAPPER_TENGEN_RAMBO_1`
and `p = 128` the unit number is 0 and no copy is made at all. -/
theorem load_rom_banks_unit_number (m : mappers) (hdr : ines_hdr)
    (hnd : m.case_labels.Nodup) :
    (hdr.mapper.val = m.MAPPER_TENGEN_RAMBO_1 →
      ∃ b : uchar, (b.val : Int) = (2 * (hdr.prg_page_count_16k.val : Int)) % 256 ∧
        load_rom_banks m hdr =
          load_8k_prg_rom_bank hdr b PRG_ROM_BANK_8000 ++
          load_8k_prg_rom_bank hdr b PRG_ROM_BANK_A000 ++
          load_8k_prg_rom_bank hdr b PRG_ROM_BANK_C000 ++
          load_8k_prg_rom_bank hdr b PRG_ROM_BANK_E000 ++
          load_chr_rom_bank hdr 1 CHR_ROM_BANK_ADDRESS ∧
        ((b.val : Int) = 2 * (hdr.prg_page_count_16k.val : Int) ↔
          hdr.prg_page_count_16k.val ≤ 127) ∧
        (hdr.prg_page_count_16k.val = 128 →
          b = 0 ∧ placements (load_rom_banks m hdr) = [])) ∧
    (hdr.mapper.val = m.MAPPER_MMC2 →
      ∃ b : uchar, (b.val : Int) = (2 * (hdr.prg_page_count_16k.val : Int) - 2) % 256 ∧
        load_rom_banks m hdr =
          load_8k_prg_rom_bank hdr 1 PRG_ROM_BANK_LOW_ADDRESS ++
          load_8k_prg_rom_bank hdr b PRG_ROM_BANK_A000 ++
          load_prg_rom_bank hdr hdr.prg_page_count_16k PRG_ROM_BANK_HIGH_ADDRESS ++
          load_chr_rom_bank hdr 1 CHR_ROM_BANK_ADDRESS ∧
        ((b.val : Int) = 2 * (hdr.prg_page_count_16k.val : Int) - 2 ↔
          1 ≤ hdr.prg_page_count_16k.val ∧ hdr.prg_page_count_16k.val ≤ 128)) := by
  have hlt := hdr.prg_page_count_16k.isLt
  constructor
  · intro hm
    have hb := to_uchar_val_emod ((hdr.prg_page_count_16k.val : Int) * 2)
    refine ⟨to_uchar ((hdr.prg_page_count_16k.val : Int) * 2), ?_,
      load_rom_banks_rambo m hdr hnd hm, ?_, ?_⟩
    · rw [hb]; congr 1; omega
    · rw [hb]; omega
    · intro h128
      have hz : to_uchar ((hdr.prg_page_count_16k.val : Int) * 2) = 0 := by
        rw [h128]; rfl
      refine ⟨hz, ?_⟩
      rw [load_rom_banks_rambo m hdr hnd hm, hz]
      simp only [load_8k_prg_rom_bank_zero]
      rfl
  · intro hm
    have hb := to_uchar_val_emod ((hdr.prg_page_count_16k.val : Int) * 2 - 2)
    refine ⟨to_uchar ((hdr.prg_page_count_16k.val : Int) * 2 - 2), ?_,
      load_rom_banks_mmc2 m hdr hnd hm, ?_⟩
    · rw [hb]; congr 1; omega
    · rw [hb]; omega

theorem load_rom_banks_unit_number_witness :
    ines_mappers.case_labels.Nodup ∧
    (ines_hdr.of_bytes
      [0x4E, 0x45, 0x53, 0x1A, 128, 0, 0x00, 0x40, 0, 0, 0, 0, 0, 0, 0, 0]).mapper.val =
        ines_mappers.MAPPER_TENGEN_RAMBO_1 ∧
    placements (load_rom_banks ines_mappers
      (ines_hdr.of_bytes
        [0x4E, 0x45, 0x53, 0x1A, 128, 0, 0x00, 0x40, 0, 0, 0, 0, 0, 0, 0, 0])) = [] :=
  ⟨ines_mappers_nodup, by decide,
   by
    obtain ⟨b, -, -, -, h⟩ := (load_rom_banks_unit_number ines_mappers
      (ines_hdr.of_bytes [0x4E, 0x45, 0x53, 0x1A, 128, 0, 0x00, 0x40, 0, 0, 0, 0, 0, 0, 0, 0])
      ines_mappers_nodup).1 (by decide)
    exact (h (by decide)).2⟩

/-- C23: when the mapper number of the header is `MAPPER_MMC2` (the case
labels being pairwise distinct) and the PRG page count `p` has
`2 <= p <= 128`, the copies to 0xA000 and to 0xC000 are contiguous in the
input and end where the PRG data ends: the offset of the first plus 8192 is
the offset of the second, and that plus 16384 is 16 + trainer size +
p * 16384; with `p = 1` no copy starts at 0xA000 and none reaches into
0xA000..0xBFFF. -/
theorem load_rom_banks_mixed_8k_contiguous (m : mappers) (hdr : ines_hdr)
    (hnd : m.case_labels.Nodup) (hm : hdr.mapper.val = m.MAPPER_MMC2) :
    (2 ≤ hdr.prg_page_count_16k.val → hdr.prg_page_count_16k.val ≤ 128 →
      ∃ off8 offA offC : Nat,
        placements (load_rom_banks m hdr) =
          [effect.file2base off8 0x8000 0xA000, effect.file2base offA 0xA000 0xC000,
           effect.file2base offC 0xC000 0x10000] ∧
        offA + 8192 = offC ∧
        offC + 16384 =
          16 + (if hdr.rom_control_byte_0.val.testBit 2 then 512 else 0) +
            hdr.prg_page_count_16k.val * 16384) ∧
    (hdr.prg_page_count_16k.val = 1 →
      ∀ pos ea1 ea2 : Nat, effect.file2base pos ea1 ea2 ∈ placements (load_rom_banks m hdr) →
        ea1 ≠ 0xA000 ∧ (ea2 ≤ 0xA000 ∨ 0xC000 ≤ ea1)) := by
  constructor
  · intro h2 h128
    refine ⟨_, _, _, placements_load_rom_banks_mmc2 m hdr hnd hm h2 h128, ?_, ?_⟩
    · generalize (if hdr.rom_control_byte_0.val.testBit 2 = true then 512 else 0) = t
      omega
    · generalize (if hdr.rom_control_byte_0.val.testBit 2 = true then 512 else 0) = t
      omega
  · intro h1 pos ea1 ea2 hmem
    rw [placements_load_rom_banks_mmc2_one m hdr hnd hm h1] at hmem
    simp only [List.mem_cons, effect.file2base.injEq, List.not_mem_nil, or_false] at hmem
    rcases hmem with ⟨-, ha, hb⟩ | ⟨-, ha, hb⟩
    · rw [ha, hb]; exact ⟨by decide, Or.inl (by decide)⟩
    · rw [ha, hb]; exact ⟨by decide, Or.inr (by decide)⟩

theorem load_rom_banks_mixed_8k_contiguous_witness :
    ines_mappers.case_labels.Nodup ∧
    (ines_hdr.of_bytes
      [0x4E, 0x45, 0x53, 0x1A, 8, 0, 0x94, 0x00, 0, 0, 0, 0, 0, 0, 0, 0]).mapper.val =
        ines_mappers.MAPPER_MMC2 ∧
    (∃ off8 offA offC : Nat,
      placements (load_rom_banks ines_mappers (ines_hdr.of_bytes
        [0x4E, 0x45, 0x53, 0x1A, 8, 0, 0x94, 0x00, 0, 0, 0, 0, 0, 0, 0, 0])) =
        [effect.file2base off8 0x8000 0xA000, effect.file2base offA 0xA000 0xC000,
         effect.file2base offC 0xC000 0x10000] ∧
      offA + 8192 = offC ∧
      offC + 16384 =
        16 + (if (ines_hdr.of_bytes
          [0x4E, 0x45, 0x53, 0x1A, 8, 0, 0x94, 0x00, 0, 0, 0, 0, 0, 0, 0, 0]
          ).rom_control_byte_0.val.testBit 2 then 512 else 0) +
          (ines_hdr.of_bytes
            [0x4E, 0x45, 0x53, 0x1A, 8, 0, 0x94, 0x00, 0, 0, 0, 0, 0, 0, 0, 0]
            ).prg_page_count_16k.val * 16384) :=
  ⟨ines_mappers_nodup, by decide,
   (load_rom_banks_mixed_8k_contiguous ines_mappers
      (ines_hdr.of_bytes [0x4E, 0x45, 0x53, 0x1A, 8, 0, 0x94, 0x00, 0, 0, 0, 0, 0, 0, 0, 0])
      ines_mappers_nodup (by decide)).1 (by decide) (by decide)⟩

/-! ## Ranges of the copies -/

theorem mem_load_prg_rom_bank_off (hdr : ines_hdr) (n : uchar) (address pos ea1 ea2 : Nat)
    (he : effect.file2base pos ea1 ea2 ∈ load_prg_rom_bank hdr n address) :
    1 ≤ n.val ∧
    pos = 16 + (if hdr.rom_control_byte_0.val.testBit 2 then 512 else 0) +
      (n.val - 1) * 16384 ∧
    ea1 = address ∧ ea2 = address + 16384 := by
  unfold load_prg_rom_bank at he
  split at he
  · simp at he
  · rename_i hc
    rw [not_or] at hc
    have hn : 1 ≤ n.val := by
      rcases Nat.eq_zero_or_pos n.val with h0 | h0
      · exact absurd (Fin.ext h0) hc.1
      · exact h0
    rw [trainer_size_eq, List.mem_singleton, effect.file2base.injEq] at he
    exact ⟨hn, he.1, he.2.1, he.2.2⟩

theorem mem_load_8k_prg_rom_bank_off (hdr : ines_hdr) (n : uchar) (address pos ea1 ea2 : Nat)
    (he : effect.file2base pos ea1 ea2 ∈ load_8k_prg_rom_bank hdr n address) :
    1 ≤ n.val ∧
    pos = 16 + (if hdr.rom_control_byte_0.val.testBit 2 then 512 else 0) +
      (n.val - 1) * 8192 ∧
    ea1 = address ∧ ea2 = address + 8192 := by
  unfold load_8k_prg_rom_bank at he
  split at he
  · simp at he
  · rename_i hc
    rw [not_or] at hc
    have hn : 1 ≤ n.val := by
      rcases Nat.eq_zero_or_pos n.val with h0 | h0
      · exact absurd (Fin.ext h0) hc.1
      · exact h0
    rw [trainer_size_eq, List.mem_singleton, effect.file2base.injEq] at he
    exact ⟨hn, he.1, he.2.1, he.2.2⟩

/-- C24: with a PRG page count `p`, `1 <= p <= 127`, and any mapper number,
every copy recorded by `load_rom_banks` has its destination inside the PRG
window 0x8000..0xFFFF, whatever the mapper and `p`; its source lies inside the
declared PRG data, from 16 + trainer size up to 16 + trainer size + p * 16384,
provided that a mapper of the first-and-second-page group comes with `p >= 2`;
for such a mapper with `p = 1` the copy of page 2 is made and its source lies
past the PRG data. -/
theorem load_rom_banks_ranges (m : mappers) (hdr : ines_hdr)
    (hp1 : 1 ≤ hdr.prg_page_count_16k.val) (hp127 : hdr.prg_page_count_16k.val ≤ 127) :
    (∀ pos ea1 ea2 : Nat, effect.file2base pos ea1 ea2 ∈ load_rom_banks m hdr →
      0x8000 ≤ ea1 ∧ ea1 < ea2 ∧ ea2 ≤ 0x10000 ∧
      ((hdr.mapper.val ∈ m.labels_first_second → 2 ≤ hdr.prg_page_count_16k.val) →
        16 + (if hdr.rom_control_byte_0.val.testBit 2 then 512 else 0) ≤ pos ∧
        pos + (ea2 - ea1) ≤
          16 + (if hdr.rom_control_byte_0.val.testBit 2 then 512 else 0) +
            hdr.prg_page_count_16k.val * 16384)) ∧
    (m.case_labels.Nodup → hdr.mapper.val ∈ m.labels_first_second →
      hdr.prg_page_count_16k.val = 1 →
      effect.file2base
          (16 + (if hdr.rom_control_byte_0.val.testBit 2 then 512 else 0) + 16384)
          0xC000 0x10000 ∈ load_rom_banks m hdr ∧
        16 + (if hdr.rom_control_byte_0.val.testBit 2 then 512 else 0) +
            hdr.prg_page_count_16k.val * 16384 <
          16 + (if hdr.rom_control_byte_0.val.testBit 2 then 512 else 0) + 16384 +
            (0x10000 - 0xC000)) := by
  have e2 : (to_uchar ((hdr.prg_page_count_16k.val : Int) * 2)).val =
      2 * hdr.prg_page_count_16k.val := by
    rw [to_uchar_val _ (by omega) (by omega)]
    omega
  have e22 : (to_uchar ((hdr.prg_page_count_16k.val : Int) * 2 - 2)).val =
      2 * hdr.prg_page_count_16k.val - 2 := by
    rw [to_uchar_val _ (by omega) (by omega)]
    omega
  have one : ((1 : uchar).val) = 1 := rfl
  have two : ((2 : uchar).val) = 2 := rfl
  constructor
  · intro pos ea1 ea2 hmem
    -- a 16 KiB page `n` copied to 0x8000 or 0xC000; its source is inside the
    -- PRG data when `n <= p`
    have h16 : ∀ (n : uchar) (a : Nat),
        ((hdr.mapper.val ∈ m.labels_first_second → 2 ≤ hdr.prg_page_count_16k.val) →
          n.val ≤ hdr.prg_page_count_16k.val) →
        (a = 0x8000 ∨ a = 0xC000) →
        effect.file2base pos ea1 ea2 ∈ load_prg_rom_bank hdr n a →
        0x8000 ≤ ea1 ∧ ea1 < ea2 ∧ ea2 ≤ 0x10000 ∧
        ((hdr.mapper.val ∈ m.labels_first_second → 2 ≤ hdr.prg_page_count_16k.val) →
          16 + (if hdr.rom_control_byte_0.val.testBit 2 then 512 else 0) ≤ pos ∧
          pos + (ea2 - ea1) ≤
            16 + (if hdr.rom_control_byte_0.val.testBit 2 then 512 else 0) +
              hdr.prg_page_count_16k.val * 16384) := by
      intro n a hn ha he
      obtain ⟨h1, hpos, hea1, hea2⟩ := mem_load_prg_rom_bank_off hdr n a pos ea1 ea2 he
      refine ⟨by omega, by omega, by omega, ?_⟩
      intro hfs
      have hn2 := hn hfs
      generalize (if hdr.rom_control_byte_0.val.testBit 2 = true then 512 else 0) = t at *
      omega
    -- an 8 KiB unit `n` with `1 <= n <= 2 * p` copied to a quarter of the window
    have h8 : ∀ (n : uchar) (a : Nat), n.val ≤ 2 * hdr.prg_page_count_16k.val →
        (a = 0x8000 ∨ a = 0xA000 ∨ a = 0xC000 ∨ a = 0xE000) →
        effect.file2base pos ea1 ea2 ∈ load_8k_prg_rom_bank hdr n a →
        0x8000 ≤ ea1 ∧ ea1 < ea2 ∧ ea2 ≤ 0x10000 ∧
        ((hdr.mapper.val ∈ m.labels_first_second → 2 ≤ hdr.prg_page_count_16k.val) →
          16 + (if hdr.rom_control_byte_0.val.testBit 2 then 512 else 0) ≤ pos ∧
          pos + (ea2 - ea1) ≤
            16 + (if hdr.rom_control_byte_0.val.testBit 2 then 512 else 0) +
              hdr.prg_page_count_16k.val * 16384) := by
      intro n a hn ha he
      obtain ⟨h1, hpos, hea1, hea2⟩ := mem_load_8k_prg_rom_bank_off hdr n a pos ea1 ea2 he
      refine ⟨by omega, by omega, by omega, ?_⟩
      intro _
      generalize (if hdr.rom_control_byte_0.val.testBit 2 = true then 512 else 0) = t at *
      omega
    have hfl : effect.file2base pos ea1 ea2 ∈ load_first_last hdr →
        0x8000 ≤ ea1 ∧ ea1 < ea2 ∧ ea2 ≤ 0x10000 ∧
        ((hdr.mapper.val ∈ m.labels_first_second → 2 ≤ hdr.prg_page_count_16k.val) →
          16 + (if hdr.rom_control_byte_0.val.testBit 2 then 512 else 0) ≤ pos ∧
          pos + (ea2 - ea1) ≤
            16 + (if hdr.rom_control_byte_0.val.testBit 2 then 512 else 0) +
              hdr.prg_page_count_16k.val * 16384) := by
      intro he
      unfold load_first_last load_chr_rom_bank at he
      simp only [List.mem_append, List.not_mem_nil, or_false] at he
      rcases he with he | he
      · exact h16 1 _ (fun _ => by rw [one]; omega) (Or.inl rfl) he
      · exact h16 _ _ (fun _ => le_refl _) (Or.inr rfl) he
    unfold load_rom_banks load_chr_rom_bank at hmem
    simp only [] at hmem
    split at hmem
    · exact hfl hmem
    · split at hmem
      · simp only [List.mem_append, List.not_mem_nil, or_false] at hmem
        rcases hmem with he | he
        · exact h16 _ _ (fun _ => le_refl _) (Or.inl rfl) he
        · exact h16 _ _ (fun _ => le_refl _) (Or.inr rfl) he
      · split at hmem
        · rename_i hin
          simp only [List.mem_append, List.not_mem_nil, or_false] at hmem
          rcases hmem with he | he
          · exact h16 1 _ (fun _ => by rw [one]; omega) (Or.inl rfl) he
          · exact h16 2 _ (fun hfs => by have hp2 := hfs hin; rw [two]; omega)
              (Or.inr rfl) he
        · split at hmem
          · simp only [List.mem_append, List.not_mem_nil, or_false] at hmem
            rcases hmem with (he | he) | he
            · exact h8 1 _ (by rw [one]; omega) (Or.inl rfl) he
            · exact h8 _ _ (by rw [e22]; omega) (Or.inr (Or.inl rfl)) he
            · exact h16 _ _ (fun _ => le_refl _) (Or.inr rfl) he
          · split at hmem
            · simp only [List.mem_append, List.not_mem_nil, or_false] at hmem
              rcases hmem with ((he | he) | he) | he
              · exact h8 _ _ (by rw [e2]) (Or.inl rfl) he
              · exact h8 _ _ (by rw [e2]) (Or.inr (Or.inl rfl)) he
              · exact h8 _ _ (by rw [e2]) (Or.inr (Or.inr (Or.inl rfl))) he
              · exact h8 _ _ (by rw [e2]) (Or.inr (Or.inr (Or.inr rfl))) he
            · rw [List.mem_cons] at hmem
              rcases hmem with he | he
              · exact effect.noConfusion he
              · exact hfl he
  · intro hnd hin h1
    constructor
    · rw [load_rom_banks_first_second m hdr hnd hin,
        load_prg_rom_bank_eq hdr 1 _ hp1 (by decide),
        load_prg_rom_bank_eq hdr 2 _ hp1 (by decide)]
      simp only [List.mem_append, List.mem_singleton]
      left; right
      rfl
    · rw [h1]
      generalize (if hdr.rom_control_byte_0.val.testBit 2 = true then 512 else 0) = t
      omega

theorem load_rom_banks_ranges_witness :
    1 ≤ (ines_hdr.of_bytes
      [0x4E, 0x45, 0x53, 0x1A, 1, 0, 0x70, 0x00, 0, 0, 0, 0, 0, 0, 0, 0]
      ).prg_page_count_16k.val ∧
    (ines_hdr.of_bytes
      [0x4E, 0x45, 0x53, 0x1A, 1, 0, 0x70, 0x00, 0, 0, 0, 0, 0, 0, 0, 0]).mapper.val ∈
        ines_mappers.labels_first_second ∧
    effect.file2base
        (16 + (if (ines_hdr.of_bytes
          [0x4E, 0x45, 0x53, 0x1A, 1, 0, 0x70, 0x00, 0, 0, 0, 0, 0, 0, 0, 0]
          ).rom_control_byte_0.val.testBit 2 then 512 else 0) + 16384)
        0xC000 0x10000 ∈ load_rom_banks ines_mappers (ines_hdr.of_bytes
          [0x4E, 0x45, 0x53, 0x1A, 1, 0, 0x70, 0x00, 0, 0, 0, 0, 0, 0, 0, 0]) ∧
    (∀ pos ea1 ea2 : Nat, effect.file2base pos ea1 ea2 ∈ load_rom_banks ines_mappers
        (ines_hdr.of_bytes
          [0x4E, 0x45, 0x53, 0x1A, 1, 0, 0x70, 0x00, 0, 0, 0, 0, 0, 0, 0, 0]) →
      0x8000 ≤ ea1 ∧ ea1 < ea2 ∧ ea2 ≤ 0x10000) ∧
    (∀ pos ea1 ea2 : Nat, effect.file2base pos ea1 ea2 ∈ load_rom_banks ines_mappers
        (ines_hdr.of_bytes
          [0x4E, 0x45, 0x53, 0x1A, 2, 0, 0x00, 0x00, 0, 0, 0, 0, 0, 0, 0, 0]) →
      0x8000 ≤ ea1 ∧ ea1 < ea2 ∧ ea2 ≤ 0x10000 ∧
      16 + (if (ines_hdr.of_bytes
          [0x4E, 0x45, 0x53, 0x1A, 2, 0, 0x00, 0x00, 0, 0, 0, 0, 0, 0, 0, 0]
          ).rom_control_byte_0.val.testBit 2 then 512 else 0) ≤ pos ∧
      pos + (ea2 - ea1) ≤
        16 + (if (ines_hdr.of_bytes
          [0x4E, 0x45, 0x53, 0x1A, 2, 0, 0x00, 0x00, 0, 0, 0, 0, 0, 0, 0, 0]
          ).rom_control_byte_0.val.testBit 2 then 512 else 0) +
          (ines_hdr.of_bytes
            [0x4E, 0x45, 0x53, 0x1A, 2, 0, 0x00, 0x00, 0, 0, 0, 0, 0, 0, 0, 0]
            ).prg_page_count_16k.val * 16384) :=
  ⟨by decide, by decide,
   ((load_rom_banks_ranges ines_mappers
      (ines_hdr.of_bytes [0x4E, 0x45, 0x53, 0x1A, 1, 0, 0x70, 0x00, 0, 0, 0, 0, 0, 0, 0, 0])
      (by decide) (by decide)).2 ines_mappers_nodup (by decide) (by decide)).1,
   fun pos ea1 ea2 h =>
     have r := (load_rom_banks_ranges ines_mappers
       (ines_hdr.of_bytes [0x4E, 0x45, 0x53, 0x1A, 1, 0, 0x70, 0x00, 0, 0, 0, 0, 0, 0, 0, 0])
       (by decide) (by decide)).1 pos ea1 ea2 h
     ⟨r.1, r.2.1, r.2.2.1⟩,
   fun pos ea1 ea2 h =>
     have r := (load_rom_banks_ranges ines_mappers
       (ines_hdr.of_bytes [0x4E, 0x45, 0x53, 0x1A, 2, 0, 0x00, 0x00, 0, 0, 0, 0, 0, 0, 0, 0])
       (by decide) (by decide)).1 pos ea1 ea2 h
     ⟨r.1, r.2.1, r.2.2.1, r.2.2.2 (fun _ => by decide)⟩⟩

/-! ## Vectors after the copies -/

/-- A byte of the range of the last copy carried out comes from the input. -/
theorem materialise_append_copy (li : linput) (es : List effect) (pos ea1 ea2 : Nat)
    (mem : Nat → uchar) (a : Nat) (h1 : ea1 ≤ a) (h2 : a < ea2)
    (h3 : pos + (a - ea1) < li.length) :
    materialise li (es ++ [effect.file2base pos ea1 ea2]) mem a =
      li.getD (pos + (a - ea1)) 0 := by
  unfold materialise
  rw [List.foldl_append]
  simp only [List.foldl_cons, List.foldl_nil, effect.apply, file2base]
  rw [if_pos ⟨h1, h2⟩, List.getD_eq_getElem?_getD, List.get?_eq_getElem?,
    List.getElem?_eq_getElem h3]
  rfl

/-- Outside the first-and-second-page group the last copy recorded by
`load_rom_banks` ends at 0x10000 and at the end of the PRG data. -/
theorem load_rom_banks_last_copy (m : mappers) (hdr : ines_hdr)
    (hp1 : 1 ≤ hdr.prg_page_count_16k.val) (hp127 : hdr.prg_page_count_16k.val ≤ 127)
    (hm : hdr.mapper.val ∉ m.labels_first_second) :
    ∃ (init : List effect) (pos ea1 : Nat),
      placements (load_rom_banks m hdr) = init ++ [effect.file2base pos ea1 0x10000] ∧
      ea1 ≤ 0xE000 ∧
      pos + 0x10000 =
        16 + (if hdr.rom_control_byte_0.val.testBit 2 then 512 else 0) +
          hdr.prg_page_count_16k.val * 16384 + ea1 := by
  have e2 : (to_uchar ((hdr.prg_page_count_16k.val : Int) * 2)).val =
      2 * hdr.prg_page_count_16k.val := by
    rw [to_uchar_val _ (by omega) (by omega)]
    omega
  have h2p : 1 ≤ (to_uchar ((hdr.prg_page_count_16k.val : Int) * 2)).val := by
    rw [e2]; omega
  have a16 : ∀ t : Nat, 16 + t + (hdr.prg_page_count_16k.val - 1) * 16384 + 0x10000 =
      16 + t + hdr.prg_page_count_16k.val * 16384 + 0xC000 := by
    intro t; omega
  have a8 : ∀ t : Nat, 16 + t + (2 * hdr.prg_page_count_16k.val - 1) * 8192 + 0x10000 =
      16 + t + hdr.prg_page_count_16k.val * 16384 + 0xE000 := by
    intro t; omega
  have hfl : ∃ (init : List effect) (pos ea1 : Nat),
      placements (load_first_last hdr) = init ++ [effect.file2base pos ea1 0x10000] ∧
      ea1 ≤ 0xE000 ∧
      pos + 0x10000 =
        16 + (if hdr.rom_control_byte_0.val.testBit 2 then 512 else 0) +
          hdr.prg_page_count_16k.val * 16384 + ea1 := by
    rw [placements_load_first_last hdr hp1]
    exact ⟨[_], _, 0xC000, rfl, by decide, a16 _⟩
  by_cases c1 : hdr.mapper.val ∈ m.labels_first_last
  · have hb : load_rom_banks m hdr = load_first_last hdr := by
      unfold load_rom_banks
      simp only [if_pos c1]
    rw [hb]
    exact hfl
  by_cases c2 : hdr.mapper.val = m.MAPPER_HK_SF3
  · have hb : load_rom_banks m hdr =
        load_prg_rom_bank hdr hdr.prg_page_count_16k PRG_ROM_BANK_LOW_ADDRESS ++
        load_prg_rom_bank hdr hdr.prg_page_count_16k PRG_ROM_BANK_HIGH_ADDRESS ++
        load_chr_rom_bank hdr 1 CHR_ROM_BANK_ADDRESS := by
      unfold load_rom_banks
      simp only [if_neg c1, if_pos c2]
    rw [hb, load_prg_rom_bank_eq hdr hdr.prg_page_count_16k _ hp1 hp1,
      load_prg_rom_bank_eq hdr hdr.prg_page_count_16k _ hp1 hp1]
    exact ⟨[_], _, 0xC000, rfl, by decide, a16 _⟩
  by_cases c4 : hdr.mapper.val = m.MAPPER_MMC2
  · have hb : load_rom_banks m hdr =
        load_8k_prg_rom_bank hdr 1 PRG_ROM_BANK_LOW_ADDRESS ++
        load_8k_prg_rom_bank hdr (to_uchar ((hdr.prg_page_count_16k.val : Int) * 2 - 2))
          PRG_ROM_BANK_A000 ++
        load_prg_rom_bank hdr hdr.prg_page_count_16k PRG_ROM_BANK_HIGH_ADDRESS ++
        load_chr_rom_bank hdr 1 CHR_ROM_BANK_ADDRESS := by
      unfold load_rom_banks
      simp only [if_neg c1, if_neg c2, if_neg hm, if_pos c4]
    rw [hb, load_prg_rom_bank_eq hdr hdr.prg_page_count_16k _ hp1 hp1]
    refine ⟨placements (load_8k_prg_rom_bank hdr 1 PRG_ROM_BANK_LOW_ADDRESS ++
      load_8k_prg_rom_bank hdr (to_uchar ((hdr.prg_page_count_16k.val : Int) * 2 - 2))
        PRG_ROM_BANK_A000), _, 0xC000, ?_, by decide, a16 _⟩
    unfold load_chr_rom_bank
    simp only [placements_append, List.append_nil]
    rfl
  by_cases c5 : hdr.mapper.val = m.MAPPER_TENGEN_RAMBO_1
  · have hb : load_rom_banks m hdr =
        load_8k_prg_rom_bank hdr (to_uchar ((hdr.prg_page_count_16k.val : Int) * 2))
          PRG_ROM_BANK_8000 ++
        load_8k_prg_rom_bank hdr (to_uchar ((hdr.prg_page_count_16k.val : Int) * 2))
          PRG_ROM_BANK_A000 ++
        load_8k_prg_rom_bank hdr (to_uchar ((hdr.prg_page_count_16k.val : Int) * 2))
          PRG_ROM_BANK_C000 ++
        load_8k_prg_rom_bank hdr (to_uchar ((hdr.prg_page_count_16k.val : Int) * 2))
          PRG_ROM_BANK_E000 ++
        load_chr_rom_bank hdr 1 CHR_ROM_BANK_ADDRESS := by
      unfold load_rom_banks
      simp only [if_neg c1, if_neg c2, if_neg hm, if_neg c4, if_pos c5]
    rw [hb, load_8k_prg_rom_bank_eq hdr _ PRG_ROM_BANK_8000 hp1 h2p,
      load_8k_prg_rom_bank_eq hdr _ PRG_ROM_BANK_A000 hp1 h2p,
      load_8k_prg_rom_bank_eq hdr _ PRG_ROM_BANK_C000 hp1 h2p,
      load_8k_prg_rom_bank_eq hdr _ PRG_ROM_BANK_E000 hp1 h2p, e2]
    exact ⟨[_, _, _], _, 0xE000, rfl, by decide, a8 _⟩
  · have hb : load_rom_banks m hdr =
        effect.warning_mapper hdr.mapper.val :: load_first_last hdr := by
      unfold load_rom_banks
      simp only [if_neg c1, if_neg c2, if_neg hm, if_neg c4, if_neg c5]
    obtain ⟨init, pos, ea1, h1, h2, h3⟩ := hfl
    refine ⟨init, pos, ea1, ?_, h2, h3⟩
    rw [hb, ← h1]
    rfl

/-- The byte that the copies leave at a vector address. -/
theorem materialise_vector_byte (m : mappers) (hdr : ines_hdr) (li : linput)
    (mem0 : Nat → uchar)
    (hp1 : 1 ≤ hdr.prg_page_count_16k.val) (hp127 : hdr.prg_page_count_16k.val ≤ 127)
    (hm : hdr.mapper.val ∉ m.labels_first_second)
    (hfull : 16 + (if hdr.rom_control_byte_0.val.testBit 2 then 512 else 0) +
      hdr.prg_page_count_16k.val * 16384 ≤ li.length)
    (a : Nat) (ha1 : 0xFFFA ≤ a) (ha2 : a < 0x10000) :
    materialise li (placements (load_rom_banks m hdr)) mem0 a =
      li.getD (16 + (if hdr.rom_control_byte_0.val.testBit 2 then 512 else 0) +
        hdr.prg_page_count_16k.val * 16384 - (0x10000 - a)) 0 := by
  obtain ⟨init, pos, ea1, h1, h2, h3⟩ := load_rom_banks_last_copy m hdr hp1 hp127 hm
  generalize (if hdr.rom_control_byte_0.val.testBit 2 = true then 512 else 0) = t at *
  have hidx : pos + (a - ea1) =
      16 + t + hdr.prg_page_count_16k.val * 16384 - (0x10000 - a) := by omega
  rw [h1, materialise_append_copy li init pos ea1 0x10000 mem0 a (by omega) ha2 (by omega),
    hidx]

/-- C25: when the PRG data is all there in the input, the PRG page count `p`
has `1 <= p <= 127` and the mapper number is not one of the
first-and-second-page group, then after the copies of `load_rom_banks` have
been carried out in order `add_entry_points` reads as NMI, RESET and IRQ the
little-endian words of the input at 6, 4 and 2 bytes before the end
16 + trainer size + p * 16384 of the PRG data. -/
theorem add_entry_points_after_load (m : mappers) (hdr : ines_hdr) (li : linput)
    (mem0 : Nat → uchar)
    (hp1 : 1 ≤ hdr.prg_page_count_16k.val) (hp127 : hdr.prg_page_count_16k.val ≤ 127)
    (hm : hdr.mapper.val ∉ m.labels_first_second)
    (hfull : 16 + (if hdr.rom_control_byte_0.val.testBit 2 then 512 else 0) +
      hdr.prg_page_count_16k.val * 16384 ≤ li.length) :
    (add_entry_points (materialise li (placements (load_rom_banks m hdr)) mem0)).1.map
        (fun e => (e.ea, e.name)) =
      [((li.getD (16 + (if hdr.rom_control_byte_0.val.testBit 2 then 512 else 0) +
            hdr.prg_page_count_16k.val * 16384 - 6) 0).val +
          256 * (li.getD (16 + (if hdr.rom_control_byte_0.val.testBit 2 then 512 else 0) +
            hdr.prg_page_count_16k.val * 16384 - 5) 0).val, "NMI_routine"),
       ((li.getD (16 + (if hdr.rom_control_byte_0.val.testBit 2 then 512 else 0) +
            hdr.prg_page_count_16k.val * 16384 - 4) 0).val +
          256 * (li.getD (16 + (if hdr.rom_control_byte_0.val.testBit 2 then 512 else 0) +
            hdr.prg_page_count_16k.val * 16384 - 3) 0).val, "RESET_routine"),
       ((li.getD (16 + (if hdr.rom_control_byte_0.val.testBit 2 then 512 else 0) +
            hdr.prg_page_count_16k.val * 16384 - 2) 0).val +
          256 * (li.getD (16 + (if hdr.rom_control_byte_0.val.testBit 2 then 512 else 0) +
            hdr.prg_page_count_16k.val * 16384 - 1) 0).val, "IRQ_routine")] := by
  have hb := materialise_vector_byte m hdr li mem0 hp1 hp127 hm hfull
  have b0 := hb 0xFFFA (by decide) (by decide)
  have b1 := hb 0xFFFB (by decide) (by decide)
  have b2 := hb 0xFFFC (by decide) (by decide)
  have b3 := hb 0xFFFD (by decide) (by decide)
  have b4 := hb 0xFFFE (by decide) (by decide)
  have b5 := hb 0xFFFF (by decide) (by decide)
  simp only [add_entry_points, get_vector, get_word, NMI_VECTOR_START_ADDRESS,
    RESET_VECTOR_START_ADDRESS, IRQ_VECTOR_START_ADDRESS, List.map_cons, List.map_nil,
    Nat.reduceAdd, Nat.reduceSub] at b0 b1 b2 b3 b4 b5 ⊢
  rw [b0, b1, b2, b3, b4, b5]

theorem add_entry_points_after_load_witness :
    16 + (if (ines_hdr.of_bytes
        [0x4E, 0x45, 0x53, 0x1A, 1, 0, 0x00, 0x00, 0, 0, 0, 0, 0, 0, 0, 0]
        ).rom_control_byte_0.val.testBit 2 then 512 else 0) +
      (ines_hdr.of_bytes
        [0x4E, 0x45, 0x53, 0x1A, 1, 0, 0x00, 0x00, 0, 0, 0, 0, 0, 0, 0, 0]
        ).prg_page_count_16k.val * 16384 ≤
      (List.replicate 16394 (0 : uchar) ++ [0x00, 0x80, 0x00, 0x90, 0x00, 0xA0]).length ∧
    (add_entry_points (materialise
        (List.replicate 16394 (0 : uchar) ++ [0x00, 0x80, 0x00, 0x90, 0x00, 0xA0])
        (placements (load_rom_banks ines_mappers (ines_hdr.of_bytes
          [0x4E, 0x45, 0x53, 0x1A, 1, 0, 0x00, 0x00, 0, 0, 0, 0, 0, 0, 0, 0])))
        (fun _ => 0))).1.map (fun e => (e.ea, e.name)) =
      [(0x8000, "NMI_routine"), (0x9000, "RESET_routine"), (0xA000, "IRQ_routine")] := by
  have hlen : (List.replicate 16394 (0 : uchar) ++
      [0x00, 0x80, 0x00, 0x90, 0x00, 0xA0]).length = 16400 := by
    rw [List.length_append, List.length_replicate]
    rfl
  have hg : ∀ i : Nat, 16394 ≤ i →
      (List.replicate 16394 (0 : uchar) ++ [0x00, 0x80, 0x00, 0x90, 0x00, 0xA0]).getD i 0 =
        ([0x00, 0x80, 0x00, 0x90, 0x00, 0xA0] : List uchar).getD (i - 16394) 0 := by
    intro i hi
    rw [List.getD_append_right _ _ _ _ (by rw [List.length_replicate]; exact hi),
      List.length_replicate]
  have hfull : 16 + (if (ines_hdr.of_bytes
        [0x4E, 0x45, 0x53, 0x1A, 1, 0, 0x00, 0x00, 0, 0, 0, 0, 0, 0, 0, 0]
        ).rom_control_byte_0.val.testBit 2 then 512 else 0) +
      (ines_hdr.of_bytes
        [0x4E, 0x45, 0x53, 0x1A, 1, 0, 0x00, 0x00, 0, 0, 0, 0, 0, 0, 0, 0]
        ).prg_page_count_16k.val * 16384 ≤
      (List.replicate 16394 (0 : uchar) ++ [0x00, 0x80, 0x00, 0x90, 0x00, 0xA0]).length := by
    rw [hlen]; decide
  refine ⟨hfull, ?_⟩
  rw [add_entry_points_after_load ines_mappers
    (ines_hdr.of_bytes [0x4E, 0x45, 0x53, 0x1A, 1, 0, 0x00, 0x00, 0, 0, 0, 0, 0, 0, 0, 0])
    (List.replicate 16394 (0 : uchar) ++ [0x00, 0x80, 0x00, 0x90, 0x00, 0xA0])
    (fun _ => 0) (by decide) (by decide) (by decide) hfull]
  have e6 : 16 + (if (ines_hdr.of_bytes
        [0x4E, 0x45, 0x53, 0x1A, 1, 0, 0x00, 0x00, 0, 0, 0, 0, 0, 0, 0, 0]
        ).rom_control_byte_0.val.testBit 2 then 512 else 0) +
      (ines_hdr.of_bytes
        [0x4E, 0x45, 0x53, 0x1A, 1, 0, 0x00, 0x00, 0, 0, 0, 0, 0, 0, 0, 0]
        ).prg_page_count_16k.val * 16384 = 16400 := by decide
  rw [e6, hg _ (by decide), hg _ (by decide), hg _ (by decide), hg _ (by decide),
    hg _ (by decide), hg _ (by decide)]
  decide

end NesLdr
